import Mathlib

/-!
# Trading simulation: HistoryObserver, Trader and AssetHistory

A shallow embedding of `src/HistoryObserver.cpp`, `src/Trader.cpp` and the
path generator of `src/AssetHistory.cpp`.

Conventions of the embedding:

* a C++ `double` is an exact rational (`ℚ`); rounding, infinities and NaN are
  outside the model, and the literals `0.95` and `1.05` are `95/100` and `105/100`;
  the one place where rounding decides a statement uses the transcription of
  the buy path in IEEE binary64 arithmetic given in the section on `binary64`;
* `unsigned int` and `size_t` are `Nat`: every count in the modelled code is
  bounded by a container size, and the window length comes from an
  `unsigned int` constructor argument, so no conversion wraps around;
* a `std::deque<double>` or `std::vector<double>` is a `List ℚ`, front first;
* the buffer behind a `double*` is a `List ℚ` of its slots.
-/

namespace TraderSim

/-! ## HistoryObserver -/

/-- The data members of `HistoryObserver`: the capacity `m_maximum_history`
and the deque `m_recent_history` (front, i.e. oldest, first). -/
structure HistoryObserver where
  m_maximum_history : Nat
  m_recent_history : List ℚ
  deriving DecidableEq

/-- The constructor `HistoryObserver::HistoryObserver(maximum_history)`:
stores the capacity, the deque starts empty. -/
def HistoryObserver.new (maximum_history : Nat) : HistoryObserver :=
  { m_maximum_history := maximum_history, m_recent_history := [] }

/-- The method `HistoryObserver::update(value, current_tick)`: `push_back`
the value, then `pop_front` when the size exceeds the capacity. The tick is
not used by the body. -/
def HistoryObserver.update (o : HistoryObserver) (value : ℚ) (current_tick : Nat) :
    HistoryObserver :=
  let _ := current_tick
  let pushed := o.m_recent_history ++ [value]
  if pushed.length > o.m_maximum_history then
    { o with m_recent_history := pushed.tail }
  else
    { o with m_recent_history := pushed }

/-- The method `HistoryObserver::finished()`. -/
def HistoryObserver.finished (_o : HistoryObserver) : Bool := false

/-- The call `std::copy_n(first, n, out)`: slot `i` of `out` receives element
`i` of the source, for `i < n`, the later slots of `out` are left alone.
Running off the end of either range is undefined in C++; the model stops
writing there. -/
def copy_n : List ℚ → Nat → List ℚ → List ℚ
  | s :: src, n + 1, _ :: dst => s :: copy_n src n dst
  | _, _, dst => dst

/-- The method `HistoryObserver::get_price_history(history, amount)`: clamp
`amount` to the deque size, copy that many elements starting at `begin()`
into `history`, return the clamped amount. The result is the returned count
and the buffer after the call. -/
def HistoryObserver.get_price_history (o : HistoryObserver) (history : List ℚ)
    (amount : Nat) : Nat × List ℚ :=
  let amount :=
    if amount > o.m_recent_history.length then o.m_recent_history.length else amount
  (amount, copy_n o.m_recent_history amount history)

/-- A run of `update` calls, one per `(value, tick)` pair, in list order. -/
def HistoryObserver.update_all (o : HistoryObserver) (pushes : List (ℚ × Nat)) :
    HistoryObserver :=
  pushes.foldl (fun acc p => acc.update p.1 p.2) o

/-- The last `n` elements of a list, in their original order. -/
def lastN (n : Nat) (l : List ℚ) : List ℚ := l.drop (l.length - n)

/-! ## Collaborators of Trader whose sources are not at hand -/

/-- Modelled from the spec: the class `Portfolio`, whose source file is not
among the sources. The spec describes it as a mapping from asset name to held
quantity, mutated only through `add` and `remove`. -/
structure Portfolio where
  holding : String → ℚ

/-- Modelled from the spec: the default-constructed `Portfolio()`, holding
nothing of any asset. -/
def Portfolio.empty : Portfolio := { holding := fun _ => 0 }

/-- Modelled from the spec: the method `Portfolio::add(asset, amount)`, which
increases the held quantity of `asset` by `amount`. -/
def Portfolio.add (p : Portfolio) (name : String) (amount : ℚ) : Portfolio :=
  { holding := fun a => if a = name then p.holding a + amount else p.holding a }

/-- Modelled from the spec: the method `Portfolio::remove(asset, amount)`, which
decreases the held quantity of `asset` by `amount` (no clamp). -/
def Portfolio.remove (p : Portfolio) (name : String) (amount : ℚ) : Portfolio :=
  { holding := fun a => if a = name then p.holding a - amount else p.holding a }

/-- Modelled from the spec: the lookup `Portfolio::operator[](name)`, the held
quantity of `name`. -/
def Portfolio.get (p : Portfolio) (name : String) : ℚ := p.holding name

/-- Modelled from the spec: the class `Asset`, whose source file is not among
the sources. Its identity is its name and its state is the current price. -/
structure Asset where
  name : String
  price : ℚ

/-- Modelled from the spec: the part of `Market` that `Trader` reads, the
current price of every asset. The source of `Market` is not among the
sources. -/
structure Market where
  current_price : String → ℚ

/-- Modelled from the spec: the method `Market::get_asset(name)`, the asset
identified by `name` at its current price. -/
def Market.get_asset (m : Market) (name : String) : Asset :=
  { name := name, price := m.current_price name }

/-! ## Trader -/

/-- The data members of `Trader`. `m_price_history` is the scratch vector
whose size is the window length; `m_history_tracker` maps an asset name to
the observer it points to (absent when the key is not in the map). The
reference `m_market` is passed to the methods that read it. -/
structure Trader where
  m_price_history : List ℚ
  m_initial_cash : ℚ
  m_cash : ℚ
  m_asset_names : List String
  m_portfolio : Portfolio
  m_history_tracker : String → Option HistoryObserver

/-- The constructor `Trader::Trader(initial_cash, asset_names,
number_of_history, market)`: `none` stands for the `std::runtime_error`
thrown on a negative amount of starting cash. -/
def Trader.new (initial_cash : ℚ) (asset_names : List String) (number_of_history : Nat) :
    Option Trader :=
  if initial_cash < 0 then none
  else some
    { m_price_history := List.replicate number_of_history 0
      m_initial_cash := initial_cash
      m_cash := initial_cash
      m_asset_names := asset_names
      m_portfolio := Portfolio.empty
      m_history_tracker := fun _ => none }

/-- The method `Trader::set_up()`: for each traded asset, in order, a fresh
observer of capacity `m_price_history.size()` is stored under the asset name. -/
def Trader.set_up (t : Trader) : Trader :=
  t.m_asset_names.foldl
    (fun acc asset =>
      { acc with
        m_history_tracker := fun a =>
          if a = asset then some (HistoryObserver.new acc.m_price_history.length)
          else acc.m_history_tracker a })
    t

/-- The method `Trader::buy(name, price, amount)`. -/
def Trader.buy (t : Trader) (name : String) (price : ℚ) (amount : ℚ) : Trader :=
  if amount ≤ 0 then t
  else
    let amount := min (t.m_cash / price) amount
    let t := { t with m_portfolio := t.m_portfolio.add name amount }
    let t := { t with m_cash := t.m_cash - amount * price }
    { t with m_cash := max 0 t.m_cash }

/-- The method `Trader::sell(name, price, amount)`. -/
def Trader.sell (t : Trader) (name : String) (price : ℚ) (amount : ℚ) : Trader :=
  if amount ≤ 0 then t
  else
    let t := { t with m_portfolio := t.m_portfolio.remove name amount }
    { t with m_cash := t.m_cash + amount * price }

/-- The averaging loop of `determine_buy_amount` and `determine_sell_amount`:
starting from `0.0`, add `m_price_history[i]` for `i = 0 .. amount_copied - 1`. -/
def accumulate (price_history : List ℚ) (amount_copied : Nat) : ℚ :=
  (List.range amount_copied).foldl (fun average i => average + price_history.getD i 0) 0

/-- The method `Trader::determine_buy_amount(asset)`. The result is the
returned amount together with the trader after the call (the scratch vector
has been written); `none` stands for the `std::out_of_range` thrown by
`m_history_tracker.at` before anything is written. -/
def Trader.determine_buy_amount (t : Trader) (asset : Asset) : Option (ℚ × Trader) :=
  match t.m_history_tracker asset.name with
  | none => none
  | some obs =>
    let r := obs.get_price_history t.m_price_history t.m_price_history.length
    let amount_copied := r.1
    let t := { t with m_price_history := r.2 }
    if amount_copied < t.m_price_history.length then some (0, t)
    else
      let average := accumulate t.m_price_history amount_copied
      let average := average / (t.m_price_history.length : ℚ)
      if asset.price < average * (95 / 100) then
        some ((t.m_cash / (t.m_asset_names.length : ℚ)) / asset.price, t)
      else some (0, t)

/-- The method `Trader::determine_sell_amount(asset)`, with the same result
convention as `determine_buy_amount`. -/
def Trader.determine_sell_amount (t : Trader) (asset : Asset) : Option (ℚ × Trader) :=
  match t.m_history_tracker asset.name with
  | none => none
  | some obs =>
    let r := obs.get_price_history t.m_price_history t.m_price_history.length
    let amount_copied := r.1
    let t := { t with m_price_history := r.2 }
    if amount_copied < t.m_price_history.length then some (0, t)
    else
      let average := accumulate t.m_price_history amount_copied
      let average := average / (t.m_price_history.length : ℚ)
      if asset.price > average * (105 / 100) then
        some (t.m_portfolio.get asset.name, t)
      else some (0, t)

/-- How a call that may throw ended: it returned with the trader in state
`t`, or an exception left the trader in state `t`. -/
inductive Outcome where
  | returned (t : Trader)
  | thrown (t : Trader)

/-- The trader state an outcome carries. -/
def Outcome.state : Outcome → Trader
  | .returned t => t
  | .thrown t => t

/-- One iteration of the loop of `Trader::interact()`: buy the amount decided
by `determine_buy_amount`, then sell the amount decided by
`determine_sell_amount`, both at the current market price of the asset. -/
def Trader.interact_asset (t : Trader) (m : Market) (asset_name : String) : Outcome :=
  match t.determine_buy_amount (m.get_asset asset_name) with
  | none => .thrown t
  | some (buy_amount, t1) =>
    let t2 := t1.buy asset_name (m.get_asset asset_name).price buy_amount
    match t2.determine_sell_amount (m.get_asset asset_name) with
    | none => .thrown t2
    | some (sell_amount, t3) =>
      .returned (t3.sell asset_name (m.get_asset asset_name).price sell_amount)

/-- The loop of `Trader::interact()` over the remaining asset names. -/
def Trader.interact_loop (m : Market) : List String → Trader → Outcome
  | [], t => .returned t
  | asset_name :: rest, t =>
    match t.interact_asset m asset_name with
    | .returned t1 => Trader.interact_loop m rest t1
    | .thrown t1 => .thrown t1

/-- The method `Trader::interact()`. -/
def Trader.interact (t : Trader) (m : Market) : Outcome :=
  Trader.interact_loop m t.m_asset_names t

/-- One call of `Trader::buy`, as data. -/
structure BuyCall where
  name : String
  price : ℚ
  amount : ℚ

/-- A finite sequence of `buy` calls, applied in list order. -/
def Trader.buy_all (t : Trader) (calls : List BuyCall) : Trader :=
  calls.foldl (fun acc c => acc.buy c.name c.price c.amount) t

/-- The trader states that arise from a freshly constructed trader through
`set_up`, through market ticks (which may change the tracked observers in any
way) and through `interact` calls at positive asset prices. The states inside
an `interact` call are included: after the `buy` of an iteration (`buying`)
and after a whole iteration (`asset_done`). -/
inductive Reachable : Trader → Prop where
  | fresh (initial_cash : ℚ) (asset_names : List String) (number_of_history : Nat)
      (t : Trader) (h : Trader.new initial_cash asset_names number_of_history = some t) :
      Reachable t
  | set_up (t : Trader) (h : Reachable t) : Reachable t.set_up
  | tick (t : Trader) (tracker : String → Option HistoryObserver) (h : Reachable t) :
      Reachable { t with m_history_tracker := tracker }
  | buying (t : Trader) (m : Market) (name : String) (size : ℚ) (t1 : Trader)
      (h : Reachable t) (hprice : 0 < m.current_price name)
      (hbuy : t.determine_buy_amount (m.get_asset name) = some (size, t1)) :
      Reachable (t1.buy name (m.get_asset name).price size)
  | asset_done (t : Trader) (m : Market) (name : String) (h : Reachable t)
      (hprice : 0 < m.current_price name) : Reachable (t.interact_asset m name).state
  | interact (t : Trader) (m : Market) (h : Reachable t)
      (hprice : ∀ name, 0 < m.current_price name) : Reachable (t.interact m).state

/-- A trader of the single asset `"A"` with window length 2, the given cash,
the given holding of `"A"` and an observer of capacity 2 whose window is
`window`; used to instantiate the statements below. -/
def exampleTrader (cash held : ℚ) (window : List ℚ) : Trader :=
  { m_price_history := [0, 0]
    m_initial_cash := cash
    m_cash := cash
    m_asset_names := ["A"]
    m_portfolio := { holding := fun a => if a = "A" then held else 0 }
    m_history_tracker := fun a =>
      if a = "A" then some { m_maximum_history := 2, m_recent_history := window } else none }

/-- The trader that `Trader(10, ["A"], 2, market)` constructs: cash 10, the
single asset `"A"`, window length 2, nothing held, no observer registered. -/
def freshTrader : Trader :=
  { m_price_history := [0, 0]
    m_initial_cash := 10
    m_cash := 10
    m_asset_names := ["A"]
    m_portfolio := Portfolio.empty
    m_history_tracker := fun _ => none }

/-- The ledger invariant: cash and every held quantity are non-negative. -/
def Solvent (t : Trader) : Prop :=
  0 ≤ t.m_cash ∧ ∀ name, 0 ≤ t.m_portfolio.holding name

/-! ## AssetHistory: the path generator -/

/-- The conversion of a size to `unsigned int` (32 bits). -/
def uint32 (n : Nat) : Nat := n % 4294967296

/-- The function `format_line(arr, ss, m)`: the numbers it sends to the line,
`arr[i]` for `i < m - 1` followed by `arr[m - 1]`, where `m - 1` is computed
in `unsigned int`. The rendering of each number as text is outside the model. -/
def format_line (arr : List ℚ) (m : Nat) : List ℚ :=
  let last := uint32 (m + 4294967295)
  (List.range last).map (fun i => arr.getD i 0) ++ [arr.getD last 0]

/-- The variables of `generate_log_price_history` that change while it runs:
the vector `timestep_data`, the number of draws taken from the generator so
far, and the data lines written to the file so far (the header line is not
part of the model). -/
structure GenState where
  timestep_data : List ℚ
  draws : Nat
  lines : List (List ℚ)

/-- The inner loop of `generate_log_price_history` at tick `i`: for
`j = 0 .. m - 1`, take the next draw `Zi` and store `ti * mu[j] + sigma[j] * Zi`
in `timestep_data[j]`. The stream `z` lists the values that successive calls
`dist(RANDOM_GENERATOR)` return. -/
def generate_row (mu sigma : List ℚ) (z : Nat → ℚ) (i m : Nat) (st : GenState) : GenState :=
  (List.range m).foldl
    (fun st j =>
      let Zi := z st.draws
      let ti : ℚ := (i : ℚ)
      { st with
        timestep_data := st.timestep_data.set j (ti * mu.getD j 0 + sigma.getD j 0 * Zi)
        draws := st.draws + 1 })
    st

/-- The function `AssetHistory::generate_log_price_history(filename,
asset_names, mu, sigma, n)`: for each tick `i = 0 .. n - 1` fill
`timestep_data` and write it as one line. The arrays behind `mu` and `sigma`
are only read. -/
def generate_log_price_history (asset_names : List String) (mu sigma : List ℚ) (n : Nat)
    (z : Nat → ℚ) : GenState :=
  let m := uint32 asset_names.length
  (List.range n).foldl
    (fun st i =>
      let st := generate_row mu sigma z i m st
      { st with
        lines := st.lines ++ [format_line st.timestep_data (uint32 st.timestep_data.length)] })
    { timestep_data := List.replicate m 0, draws := 0, lines := [] }

/-- The value `ti * mu[a] + sigma[a] * Zi` stored for tick `i` and asset `a`
when `d` draws were taken before the row began, so that `Zi` is draw `d + a`. -/
def path_entry (mu sigma : List ℚ) (z : Nat → ℚ) (i d a : Nat) : ℚ :=
  (i : ℚ) * mu.getD a 0 + sigma.getD a 0 * z (d + a)

/-- The market in which every asset trades at the price `p`. -/
def marketAt (p : ℚ) : Market := { current_price := fun _ => p }

/-- The trader `freshTrader` after `set_up` and after market ticks that left
the window 10, 10 in the observer of `"A"`. -/
def traderWarm : Trader :=
  { freshTrader.set_up with
    m_history_tracker := fun a =>
      if a = "A" then some { m_maximum_history := 2, m_recent_history := [10, 10] }
      else none }

/-- The trader `traderWarm` after `interact` at price 5: the price is below
`0.95 * 10`, so the whole cash 10 buys 2 units of `"A"`. -/
def traderAfterBuy : Trader := (traderWarm.interact (marketAt 5)).state

/-- The trader `traderAfterBuy` after market ticks that left the window 1, 1
in the observer of `"A"`. -/
def traderBeforeSell : Trader :=
  { traderAfterBuy with
    m_history_tracker := fun a =>
      if a = "A" then some { m_maximum_history := 2, m_recent_history := [1, 1] }
      else none }

/-- The trader `traderBeforeSell` after `interact` at price 2: the price is
above `1.05 * 1`, so the 2 units of `"A"` are sold. -/
def traderAfterSell : Trader := (traderBeforeSell.interact (marketAt 2)).state

/-! ## The buy path in IEEE binary64 arithmetic -/

/-- The power `2 ^ k` for an integer exponent. -/
def pow2 (k : ℤ) : ℚ :=
  if 0 ≤ k then ((2 ^ k.toNat : ℕ) : ℚ) else 1 / ((2 ^ (-k).toNat : ℕ) : ℚ)

/-- The number of binary digits of `n`, computed within `fuel` halvings. -/
def bit_length : Nat → Nat → Nat
  | 0, _ => 0
  | fuel + 1, n => if n = 0 then 0 else bit_length fuel (n / 2) + 1

/-- The binary exponent of a nonzero rational: the `k` with
`2 ^ k ≤ |x| < 2 ^ (k + 1)`. -/
def ilog2 (x : ℚ) : ℤ :=
  let k : ℤ := (bit_length x.num.natAbs x.num.natAbs : ℤ) - (bit_length x.den x.den : ℤ)
  if pow2 k ≤ |x| then k else k - 1

/-- Rounding to the nearest integer, ties to the even one. -/
def round_half_even (x : ℚ) : ℤ :=
  let f := Rat.floor x
  let d := x - (f : ℚ)
  if d < 1 / 2 then f
  else if 1 / 2 < d then f + 1
  else if f % 2 = 0 then f
  else f + 1

/-- The value a `double` operation stores for the exact result `x`: `x`
rounded to the nearest number with a 53-bit significand, ties to even (the
IEEE 754 default). Overflow and subnormal numbers are not modelled; the
statements below use magnitudes between `2 ^ (-60)` and `2 ^ 10` only. -/
def binary64 (x : ℚ) : ℚ :=
  if x = 0 then 0
  else
    let e := ilog2 x - 52
    (round_half_even (x / pow2 e) : ℚ) * pow2 e

/-- The averaging loop of `determine_buy_amount` with every `+=` rounded. -/
def accumulate_double (price_history : List ℚ) (amount_copied : Nat) : ℚ :=
  (List.range amount_copied).foldl
    (fun average i => binary64 (average + price_history.getD i 0)) 0

/-- The method `Trader::determine_buy_amount(asset)` with every arithmetic
operation of lines 74-85 rounded to a `double`, the literal `0.95` included. -/
def Trader.determine_buy_amount_double (t : Trader) (asset : Asset) : Option (ℚ × Trader) :=
  match t.m_history_tracker asset.name with
  | none => none
  | some obs =>
    let r := obs.get_price_history t.m_price_history t.m_price_history.length
    let amount_copied := r.1
    let t := { t with m_price_history := r.2 }
    if amount_copied < t.m_price_history.length then some (0, t)
    else
      let average := accumulate_double t.m_price_history amount_copied
      let average := binary64 (average / (t.m_price_history.length : ℚ))
      if asset.price < binary64 (average * binary64 (95 / 100)) then
        some (binary64 (binary64 (t.m_cash / (t.m_asset_names.length : ℚ)) / asset.price), t)
      else some (0, t)

/-- The method `Trader::buy(name, price, amount)` with every arithmetic
operation of lines 39-48 rounded to a `double`. -/
def Trader.buy_double (t : Trader) (name : String) (price : ℚ) (amount : ℚ) : Trader :=
  if amount ≤ 0 then t
  else
    let amount := min (binary64 (t.m_cash / price)) amount
    let t := { t with m_portfolio := t.m_portfolio.add name amount }
    let t := { t with m_cash := binary64 (t.m_cash - binary64 (amount * price)) }
    { t with m_cash := max 0 t.m_cash }

/-! ### Lemmas on the window -/

theorem copy_n_eq_take_append_drop (src : List ℚ) (n : Nat) (dst : List ℚ)
    (hs : n ≤ src.length) (hd : n ≤ dst.length) :
    copy_n src n dst = src.take n ++ dst.drop n := by
  induction n generalizing src dst with
  | zero => cases src <;> simp [copy_n]
  | succ k ih =>
    cases src with
    | nil => simp at hs
    | cons s src =>
      cases dst with
      | nil => simp at hd
      | cons d dst =>
        simp only [List.length_cons, Nat.add_le_add_iff_right] at hs hd
        simp [copy_n, ih src dst hs hd]

theorem lastN_of_length_le (n : Nat) (l : List ℚ) (h : l.length ≤ n) : lastN n l = l := by
  simp [lastN, Nat.sub_eq_zero_of_le h]

theorem length_lastN (n : Nat) (l : List ℚ) : (lastN n l).length = min n l.length := by
  simp only [lastN, List.length_drop]
  omega

theorem lastN_lastN_append (n : Nat) (a b : List ℚ) :
    lastN n (lastN n a ++ b) = lastN n (a ++ b) := by
  by_cases hle : a.length ≤ n
  · rw [lastN_of_length_le n a hle]
  · have hk : (a ++ b).length - n = (a.length - n) + b.length := by
      simp only [List.length_append]
      omega
    have hj : (lastN n a ++ b).length - n = b.length := by
      simp only [List.length_append, length_lastN]
      omega
    have hdrop : (a ++ b).drop (a.length - n) = lastN n a ++ b := by
      rw [List.drop_append_of_le_length (by omega)]
      rfl
    calc lastN n (lastN n a ++ b)
        = (lastN n a ++ b).drop b.length := by rw [lastN, hj]
      _ = ((a ++ b).drop (a.length - n)).drop b.length := by rw [hdrop]
      _ = (a ++ b).drop ((a.length - n) + b.length) := by rw [List.drop_drop]
      _ = lastN n (a ++ b) := by rw [lastN, hk]

theorem update_window (o : HistoryObserver) (v : ℚ) (tick : Nat)
    (h : o.m_recent_history.length ≤ o.m_maximum_history) :
    (o.update v tick).m_recent_history = lastN o.m_maximum_history (o.m_recent_history ++ [v]) := by
  unfold HistoryObserver.update
  by_cases hfull : (o.m_recent_history ++ [v]).length > o.m_maximum_history
  · have hlen : o.m_recent_history.length = o.m_maximum_history := by
      simp only [List.length_append, List.length_singleton] at hfull
      omega
    simp only [hfull, if_true]
    unfold lastN
    simp only [List.length_append, List.length_singleton, hlen, Nat.add_sub_cancel_left]
    simp
  · simp only [hfull, if_false]
    rw [lastN_of_length_le]
    omega

theorem update_capacity (o : HistoryObserver) (v : ℚ) (tick : Nat) :
    (o.update v tick).m_maximum_history = o.m_maximum_history := by
  simp only [HistoryObserver.update]
  split <;> rfl

theorem update_length_le (o : HistoryObserver) (v : ℚ) (tick : Nat)
    (h : o.m_recent_history.length ≤ o.m_maximum_history) :
    (o.update v tick).m_recent_history.length ≤ o.m_maximum_history := by
  rw [update_window o v tick h, length_lastN]
  omega

theorem update_all_capacity (o : HistoryObserver) (pushes : List (ℚ × Nat)) :
    (o.update_all pushes).m_maximum_history = o.m_maximum_history := by
  induction pushes generalizing o with
  | nil => rfl
  | cons p ps ih =>
    simp only [HistoryObserver.update_all, List.foldl_cons] at ih ⊢
    rw [ih, update_capacity]

theorem update_all_window (o : HistoryObserver) (pushes : List (ℚ × Nat))
    (h : o.m_recent_history.length ≤ o.m_maximum_history) :
    (o.update_all pushes).m_recent_history
      = lastN o.m_maximum_history (o.m_recent_history ++ pushes.map Prod.fst) := by
  induction pushes generalizing o with
  | nil => simp [HistoryObserver.update_all, lastN_of_length_le _ _ h]
  | cons p ps ih =>
    simp only [HistoryObserver.update_all, List.foldl_cons] at ih ⊢
    have hstep := update_length_le o p.1 p.2 h
    rw [← update_capacity o p.1 p.2] at hstep
    rw [ih _ hstep, update_capacity, update_window o p.1 p.2 h, lastN_lastN_append]
    simp

theorem fresh_update_all_window (C : Nat) (pushes : List (ℚ × Nat)) :
    ((HistoryObserver.new C).update_all pushes).m_recent_history
      = lastN C (pushes.map Prod.fst) := by
  have h := update_all_window (HistoryObserver.new C) pushes (by simp [HistoryObserver.new])
  simpa [HistoryObserver.new] using h


theorem get_price_history_count (o : HistoryObserver) (history : List ℚ) (amount : Nat) :
    (o.get_price_history history amount).1 = min amount o.m_recent_history.length := by
  simp only [HistoryObserver.get_price_history]
  split <;> omega

theorem get_price_history_buffer (o : HistoryObserver) (history : List ℚ) (amount : Nat)
    (hbuf : min amount o.m_recent_history.length ≤ history.length) :
    (o.get_price_history history amount).2
      = o.m_recent_history.take (min amount o.m_recent_history.length)
        ++ history.drop (min amount o.m_recent_history.length) := by
  have hcount := get_price_history_count o history amount
  simp only [HistoryObserver.get_price_history] at hcount ⊢
  rw [hcount]
  exact copy_n_eq_take_append_drop _ _ _ (Nat.min_le_right _ _) hbuf

theorem take_take_append_drop (w history : List ℚ) (n : Nat) (hn : n ≤ w.length) :
    (w.take n ++ history.drop n).take n = w.take n := by
  have hlen : (w.take n).length = n := by simp [hn]
  conv_lhs => rw [← hlen]
  rw [hlen]
  exact List.take_left' hlen

/-! ### Claims on HistoryObserver -/

/-- C1, evaluated on the code: an observer of capacity 3 that has seen 1, 2, 3
is asked for 2 values. The call reports 2 and writes 1, 2, the two OLDEST
values of the window, while the two most recent values are 2, 3. -/
theorem get_price_history_copies_from_front :
    ((HistoryObserver.new 3).update_all [(1, 0), (2, 1), (3, 2)]).get_price_history [0, 0] 2
        = (2, [1, 2])
      ∧ lastN 2 ((HistoryObserver.new 3).update_all [(1, 0), (2, 1), (3, 2)]).m_recent_history
        = [2, 3] := by
  decide

/-- C2: after at least `C ≥ 1` pushes into a fresh observer of capacity `C`,
reading `C` values into a buffer of at least `C` slots reports `C` and the
first `C` slots hold the last `C` pushed values, oldest first. -/
theorem full_window_read (C : Nat) (pushes : List (ℚ × Nat)) (history : List ℚ)
    (hC : 1 ≤ C) (hK : C ≤ pushes.length) (hbuf : C ≤ history.length) :
    (((HistoryObserver.new C).update_all pushes).get_price_history history C).1 = C
      ∧ (((HistoryObserver.new C).update_all pushes).get_price_history history C).2.take C
        = lastN C (pushes.map Prod.fst) := by
  have _ := hC
  have hw := fresh_update_all_window C pushes
  have hlen : ((HistoryObserver.new C).update_all pushes).m_recent_history.length = C := by
    rw [hw, length_lastN, List.length_map]
    omega
  have hmin : min C ((HistoryObserver.new C).update_all pushes).m_recent_history.length = C := by
    rw [hlen, Nat.min_self]
  constructor
  · rw [get_price_history_count, hmin]
  · rw [get_price_history_buffer _ _ _ (by rw [hmin]; exact hbuf), hmin,
      take_take_append_drop _ _ _ (by rw [hlen]), List.take_of_length_le (by rw [hlen]), hw]

/-- Witness of C2: capacity 2, three pushes, a buffer of three slots. -/
theorem full_window_read_witness :
    (((HistoryObserver.new 2).update_all [(5, 0), (6, 1), (7, 2)]).get_price_history
        [0, 0, 0] 2).1 = 2
      ∧ (((HistoryObserver.new 2).update_all [(5, 0), (6, 1), (7, 2)]).get_price_history
        [0, 0, 0] 2).2.take 2 = lastN 2 ([(5, 0), (6, 1), (7, 2)].map Prod.fst) :=
  full_window_read 2 [(5, 0), (6, 1), (7, 2)] [0, 0, 0] (by decide) (by decide) (by decide)

/-- C3: after `K < C` pushes into a fresh observer of capacity `C`, a read of
any `amount ≥ K` values into a buffer of at least `K` slots reports exactly
`K`, and the first `K` slots hold all pushed values in push order. -/
theorem short_window_read (C amount : Nat) (pushes : List (ℚ × Nat)) (history : List ℚ)
    (hK : pushes.length < C) (hamount : pushes.length ≤ amount)
    (hbuf : pushes.length ≤ history.length) :
    (((HistoryObserver.new C).update_all pushes).get_price_history history amount).1
        = pushes.length
      ∧ (((HistoryObserver.new C).update_all pushes).get_price_history history amount).2.take
          pushes.length = pushes.map Prod.fst := by
  have hw : ((HistoryObserver.new C).update_all pushes).m_recent_history
      = pushes.map Prod.fst := by
    rw [fresh_update_all_window, lastN_of_length_le]
    rw [List.length_map]
    omega
  have hlen : ((HistoryObserver.new C).update_all pushes).m_recent_history.length
      = pushes.length := by
    rw [hw, List.length_map]
  have hmin : min amount ((HistoryObserver.new C).update_all pushes).m_recent_history.length
      = pushes.length := by
    rw [hlen]
    omega
  constructor
  · rw [get_price_history_count, hmin]
  · rw [get_price_history_buffer _ _ _ (by rw [hmin]; exact hbuf), hmin,
      take_take_append_drop _ _ _ (by rw [hlen]), List.take_of_length_le (by rw [hlen]), hw]

/-- Witness of C3: capacity 5, two pushes, four values requested. -/
theorem short_window_read_witness :
    (((HistoryObserver.new 5).update_all [(5, 0), (6, 1)]).get_price_history
        [0, 0, 0, 0] 4).1 = [(5, 0), (6, 1)].length
      ∧ (((HistoryObserver.new 5).update_all [(5, 0), (6, 1)]).get_price_history
        [0, 0, 0, 0] 4).2.take [(5, 0), (6, 1)].length = [(5, 0), (6, 1)].map Prod.fst :=
  short_window_read 5 4 [(5, 0), (6, 1)] [0, 0, 0, 0] (by decide) (by decide) (by decide)

/-- C4: every state reached from `HistoryObserver(C)` by `update` calls keeps
capacity `C` and a window of at most `C` values; and an `update(v)` on any
observer whose window already holds its capacity `≥ 1` of values yields the
old window without its first element, followed by `v`. -/
theorem window_invariant (C : Nat) (pushes : List (ℚ × Nat)) :
    ((HistoryObserver.new C).update_all pushes).m_maximum_history = C
      ∧ ((HistoryObserver.new C).update_all pushes).m_recent_history.length ≤ C
      ∧ ∀ (o : HistoryObserver) (v : ℚ) (tick : Nat),
          1 ≤ o.m_maximum_history →
          o.m_recent_history.length = o.m_maximum_history →
          (o.update v tick).m_recent_history = o.m_recent_history.tail ++ [v] := by
  refine ⟨?_, ?_, ?_⟩
  · rw [update_all_capacity]
    rfl
  · rw [fresh_update_all_window, length_lastN]
    omega
  · intro o v tick hcap hfull
    have hne : o.m_recent_history ≠ [] := by
      intro hnil
      rw [hnil] at hfull
      simp at hfull
      omega
    simp only [HistoryObserver.update, List.length_append, List.length_singleton, hfull,
      gt_iff_lt, Nat.lt_add_one, if_true]
    cases hw : o.m_recent_history with
    | nil => exact absurd hw hne
    | cons a rest => rfl

/-- Witness of C4: the full-window step on the observer holding 1, 2 with
capacity 2. -/
theorem window_invariant_witness :
    (({ m_maximum_history := 2, m_recent_history := [1, 2] } : HistoryObserver).update 3
      7).m_recent_history
      = ({ m_maximum_history := 2, m_recent_history := [1, 2] } :
          HistoryObserver).m_recent_history.tail ++ [3] :=
  (window_invariant 2 [(1, 0), (2, 1)]).2.2
    { m_maximum_history := 2, m_recent_history := [1, 2] } 3 7 (by decide) (by decide)



theorem copy_n_length (src : List ℚ) (n : Nat) (dst : List ℚ) :
    (copy_n src n dst).length = dst.length := by
  induction src generalizing n dst with
  | nil => simp [copy_n]
  | cons a src ih =>
    cases n with
    | zero => simp [copy_n]
    | succ k =>
      cases dst with
      | nil => simp [copy_n]
      | cons d dst => simp [copy_n, ih]

theorem get_price_history_length (o : HistoryObserver) (history : List ℚ) (amount : Nat) :
    (o.get_price_history history amount).2.length = history.length := by
  simp only [HistoryObserver.get_price_history]
  exact copy_n_length _ _ _

theorem accumulate_succ (l : List ℚ) (n : Nat) :
    accumulate l (n + 1) = accumulate l n + l.getD n 0 := by
  simp [accumulate, List.range_succ, List.foldl_append]

theorem accumulate_eq_sum_take (l : List ℚ) (n : Nat) (h : n ≤ l.length) :
    accumulate l n = (l.take n).sum := by
  induction n with
  | zero => simp [accumulate]
  | succ k ih =>
    have hk : k < l.length := h
    rw [accumulate_succ, ih (Nat.le_of_lt hk), List.take_succ, List.sum_append]
    simp [List.getD_eq_getElem?_getD, List.getElem?_eq_getElem hk]

theorem get_price_history_full (o : HistoryObserver) (history : List ℚ)
    (hfull : o.m_recent_history.length = history.length) :
    o.get_price_history history history.length = (history.length, o.m_recent_history) := by
  have hmin : min history.length o.m_recent_history.length = history.length := by
    rw [hfull, Nat.min_self]
  have h1 := get_price_history_count o history history.length
  have h2 := get_price_history_buffer o history history.length (by rw [hmin])
  rw [hmin] at h1 h2
  rw [List.drop_length, List.append_nil, List.take_of_length_le (by rw [hfull])] at h2
  exact Prod.ext h1 h2

theorem determine_buy_amount_full (t : Trader) (asset : Asset) (obs : HistoryObserver)
    (htr : t.m_history_tracker asset.name = some obs)
    (hfull : obs.m_recent_history.length = t.m_price_history.length) :
    t.determine_buy_amount asset
      = some
          (if asset.price
                < obs.m_recent_history.sum / (t.m_price_history.length : ℚ) * (95 / 100) then
              (t.m_cash / (t.m_asset_names.length : ℚ)) / asset.price
            else 0,
            { t with m_price_history := obs.m_recent_history }) := by
  simp only [Trader.determine_buy_amount, htr, get_price_history_full obs _ hfull, hfull,
    lt_irrefl, if_false]
  rw [accumulate_eq_sum_take _ _ (by rw [hfull]), ← hfull, List.take_length]
  split <;> rfl

theorem determine_sell_amount_full (t : Trader) (asset : Asset) (obs : HistoryObserver)
    (htr : t.m_history_tracker asset.name = some obs)
    (hfull : obs.m_recent_history.length = t.m_price_history.length) :
    t.determine_sell_amount asset
      = some
          (if asset.price
                > obs.m_recent_history.sum / (t.m_price_history.length : ℚ) * (105 / 100) then
              t.m_portfolio.get asset.name
            else 0,
            { t with m_price_history := obs.m_recent_history }) := by
  simp only [Trader.determine_sell_amount, htr, get_price_history_full obs _ hfull, hfull,
    lt_irrefl, if_false]
  rw [accumulate_eq_sum_take _ _ (by rw [hfull]), ← hfull, List.take_length]
  split <;> rfl

theorem determine_buy_amount_short (t : Trader) (asset : Asset) (obs : HistoryObserver)
    (htr : t.m_history_tracker asset.name = some obs)
    (hfew : obs.m_recent_history.length < t.m_price_history.length) :
    t.determine_buy_amount asset
      = some (0, { t with m_price_history :=
          (obs.get_price_history t.m_price_history t.m_price_history.length).2 }) := by
  have hcount := get_price_history_count obs t.m_price_history t.m_price_history.length
  have hlen := get_price_history_length obs t.m_price_history t.m_price_history.length
  have hlt : (obs.get_price_history t.m_price_history t.m_price_history.length).1
      < (obs.get_price_history t.m_price_history t.m_price_history.length).2.length := by
    rw [hcount, hlen]
    omega
  simp only [Trader.determine_buy_amount, htr, hlt, if_true]

theorem determine_sell_amount_short (t : Trader) (asset : Asset) (obs : HistoryObserver)
    (htr : t.m_history_tracker asset.name = some obs)
    (hfew : obs.m_recent_history.length < t.m_price_history.length) :
    t.determine_sell_amount asset
      = some (0, { t with m_price_history :=
          (obs.get_price_history t.m_price_history t.m_price_history.length).2 }) := by
  have hcount := get_price_history_count obs t.m_price_history t.m_price_history.length
  have hlen := get_price_history_length obs t.m_price_history t.m_price_history.length
  have hlt : (obs.get_price_history t.m_price_history t.m_price_history.length).1
      < (obs.get_price_history t.m_price_history t.m_price_history.length).2.length := by
    rw [hcount, hlen]
    omega
  simp only [Trader.determine_sell_amount, htr, hlt, if_true]



/-! ### Lemmas on buy and sell -/

theorem buy_cash_nonneg (t : Trader) (name : String) (price amount : ℚ)
    (hcash : 0 ≤ t.m_cash) : 0 ≤ (t.buy name price amount).m_cash := by
  unfold Trader.buy
  split
  · exact hcash
  · exact le_max_left _ _

theorem buy_holding (t : Trader) (name : String) (price amount : ℚ) :
    (t.buy name price amount).m_portfolio.holding name
      = t.m_portfolio.holding name
        + (if amount ≤ 0 then 0 else min (t.m_cash / price) amount) := by
  unfold Trader.buy
  split
  · simp
  · simp [Portfolio.add]

theorem buy_holding_other (t : Trader) (name other : String) (price amount : ℚ)
    (hne : other ≠ name) :
    (t.buy name price amount).m_portfolio.holding other = t.m_portfolio.holding other := by
  unfold Trader.buy
  split
  · rfl
  · simp [Portfolio.add, hne]

theorem buy_all_append (t : Trader) (pre post : List BuyCall) :
    t.buy_all (pre ++ post) = (t.buy_all pre).buy_all post := by
  simp [Trader.buy_all, List.foldl_append]

theorem buy_all_cash_nonneg (t : Trader) (calls : List BuyCall) (hcash : 0 ≤ t.m_cash) :
    0 ≤ (t.buy_all calls).m_cash := by
  induction calls generalizing t with
  | nil => exact hcash
  | cons c rest ih =>
    simp only [Trader.buy_all, List.foldl_cons] at ih ⊢
    exact ih _ (buy_cash_nonneg t c.name c.price c.amount hcash)

/-! ### Claims on the trading policy -/

/-- C5: from a state with `cash ≥ 0`, after any finite sequence of `buy` calls
at positive prices the cash is `≥ 0`; and at every call of the sequence the
cash before and after the call is `≥ 0`, the holding of the bought asset grows
by at most `cash / price` (cash as of that call), by exactly
`min(amount, cash / price)` when `amount > 0` and by nothing otherwise. -/
theorem buy_cash_invariant (t : Trader) (calls : List BuyCall) (hcash : 0 ≤ t.m_cash)
    (hprice : ∀ c ∈ calls, 0 < c.price) :
    0 ≤ (t.buy_all calls).m_cash
      ∧ ∀ (pre post : List BuyCall) (c : BuyCall), calls = pre ++ c :: post →
          0 ≤ (t.buy_all pre).m_cash
            ∧ 0 ≤ ((t.buy_all pre).buy c.name c.price c.amount).m_cash
            ∧ ((t.buy_all pre).buy c.name c.price c.amount).m_portfolio.holding c.name
                - (t.buy_all pre).m_portfolio.holding c.name
                ≤ (t.buy_all pre).m_cash / c.price
            ∧ (0 < c.amount →
                ((t.buy_all pre).buy c.name c.price c.amount).m_portfolio.holding c.name
                  - (t.buy_all pre).m_portfolio.holding c.name
                  = min c.amount ((t.buy_all pre).m_cash / c.price))
            ∧ (c.amount ≤ 0 →
                ((t.buy_all pre).buy c.name c.price c.amount).m_portfolio.holding c.name
                  - (t.buy_all pre).m_portfolio.holding c.name = 0) := by
  refine ⟨buy_all_cash_nonneg t calls hcash, ?_⟩
  intro pre post c hsplit
  have hpre := buy_all_cash_nonneg t pre hcash
  have hc : 0 < c.price := hprice c (by rw [hsplit]; simp)
  have hquot : 0 ≤ (t.buy_all pre).m_cash / c.price := div_nonneg hpre (le_of_lt hc)
  refine ⟨hpre, buy_cash_nonneg _ _ _ _ hpre, ?_, ?_, ?_⟩
  · rw [buy_holding, add_sub_cancel_left]
    split
    · exact hquot
    · exact min_le_left _ _
  · intro hpos
    rw [buy_holding, add_sub_cancel_left, if_neg (not_le.mpr hpos), min_comm]
  · intro hnon
    rw [buy_holding, add_sub_cancel_left, if_pos hnon]

/-- Witness of C5: cash 10, one request of 10 units at price 2. -/
theorem buy_cash_invariant_witness :
    0 ≤ ((exampleTrader 10 0 []).buy_all [{ name := "A", price := 2, amount := 10 }]).m_cash :=
  (buy_cash_invariant (exampleTrader 10 0 []) [{ name := "A", price := 2, amount := 10 }]
    (by norm_num [exampleTrader]) (by simp)).1

/-- C6: with a registered observer holding a full window of `W ≥ 1` prices,
`n ≥ 1` traded assets and price `p > 0`, `determine_buy_amount` returns
`(cash / n) / p` if `p < 0.95 * avg` and `0` otherwise, where `avg` is the sum
of the window divided by `W`. -/
theorem buy_rule (t : Trader) (asset : Asset) (obs : HistoryObserver)
    (htr : t.m_history_tracker asset.name = some obs)
    (hfull : obs.m_recent_history.length = t.m_price_history.length)
    (hW : 1 ≤ t.m_price_history.length) (hn : 1 ≤ t.m_asset_names.length)
    (hp : 0 < asset.price) :
    (t.determine_buy_amount asset).map Prod.fst
      = some
          (if asset.price
                < (95 / 100) * (obs.m_recent_history.sum / (t.m_price_history.length : ℚ)) then
              (t.m_cash / (t.m_asset_names.length : ℚ)) / asset.price
            else 0) := by
  have _ := hW
  have _ := hn
  have _ := hp
  rw [determine_buy_amount_full t asset obs htr hfull, mul_comm]
  rfl

/-- Witness of C6: window 10, 10, cash 10, price 5. -/
theorem buy_rule_witness :
    ((exampleTrader 10 0 [10, 10]).determine_buy_amount { name := "A", price := 5 }).map
        Prod.fst
      = some
          (if (5 : ℚ) < (95 / 100) * (([10, 10] : List ℚ).sum / ((2 : Nat) : ℚ)) then
              ((10 : ℚ) / ((1 : Nat) : ℚ)) / 5
            else 0) :=
  buy_rule (exampleTrader 10 0 [10, 10]) { name := "A", price := 5 }
    { m_maximum_history := 2, m_recent_history := [10, 10] }
    (by simp [exampleTrader]) (by simp [exampleTrader]) (by simp [exampleTrader])
    (by simp [exampleTrader]) (by norm_num)



/-- C8: when the registered observer of the asset holds fewer values than the
window length, `determine_buy_amount` and `determine_sell_amount` both return
`0`, whatever the price, the cash and the holdings are, and the iteration of
`interact` for that asset returns with cash and portfolio unchanged. -/
theorem insufficient_history_guard (t : Trader) (m : Market) (asset : Asset)
    (obs : HistoryObserver)
    (htr : t.m_history_tracker asset.name = some obs)
    (hfew : obs.m_recent_history.length < t.m_price_history.length) :
    (t.determine_buy_amount asset).map Prod.fst = some 0
      ∧ (t.determine_sell_amount asset).map Prod.fst = some 0
      ∧ ∃ t1 : Trader, t.interact_asset m asset.name = Outcome.returned t1
          ∧ t1.m_cash = t.m_cash ∧ t1.m_portfolio = t.m_portfolio := by
  refine ⟨?_, ?_, ?_⟩
  · rw [determine_buy_amount_short t asset obs htr hfew]
    rfl
  · rw [determine_sell_amount_short t asset obs htr hfew]
    rfl
  · have hbuy := determine_buy_amount_short t (m.get_asset asset.name) obs htr hfew
    have hlen := get_price_history_length obs t.m_price_history t.m_price_history.length
    have hsell := determine_sell_amount_short
      { t with m_price_history :=
          (obs.get_price_history t.m_price_history t.m_price_history.length).2 }
      (m.get_asset asset.name) obs htr (by rw [hlen]; exact hfew)
    simp only [Trader.interact_asset, hbuy, Trader.buy, le_refl, if_true, hsell, Trader.sell]
    exact ⟨_, rfl, rfl, rfl⟩

/-- Witness of C8: window length 2, one value observed so far. -/
theorem insufficient_history_guard_witness :
    ((exampleTrader 10 3 [1]).determine_buy_amount { name := "A", price := 5 }).map Prod.fst
      = some 0 :=
  (insufficient_history_guard (exampleTrader 10 3 [1]) { current_price := fun _ => 5 }
    { name := "A", price := 5 } { m_maximum_history := 2, m_recent_history := [1] }
    (by simp [exampleTrader]) (by simp [exampleTrader])).1

/-- C9, refuted as stated: with cash `0` (which is `≥ 0`), one traded asset,
the full window `[10, 10]` and the price `5 < 0.95 * 10`, the buy-order size
returned by `determine_buy_amount` is `0`. -/
theorem buy_trigger_zero_cash_counterexample :
    ¬ ∀ (t : Trader) (asset : Asset) (obs : HistoryObserver),
        t.m_history_tracker asset.name = some obs →
        obs.m_recent_history.length = t.m_price_history.length →
        1 ≤ t.m_price_history.length →
        0 ≤ t.m_cash →
        1 ≤ t.m_asset_names.length →
        0 < asset.price →
        asset.price
          < (95 / 100) * (obs.m_recent_history.sum / (t.m_price_history.length : ℚ)) →
        (t.determine_buy_amount asset).map Prod.fst ≠ some 0 := by
  intro hall
  have hfull := determine_buy_amount_full (exampleTrader 0 0 [10, 10])
    { name := "A", price := 5 } { m_maximum_history := 2, m_recent_history := [10, 10] }
    (by simp [exampleTrader]) (by simp [exampleTrader])
  have h := hall (exampleTrader 0 0 [10, 10]) { name := "A", price := 5 }
    { m_maximum_history := 2, m_recent_history := [10, 10] }
    (by simp [exampleTrader]) (by simp [exampleTrader]) (by simp [exampleTrader])
    (by simp [exampleTrader]) (by simp [exampleTrader]) (by norm_num)
    (by norm_num [exampleTrader])
  apply h
  rw [hfull]
  norm_num [exampleTrader]

/-- C9, amended: given a full window, for every trader state with cash `> 0`
and `n ≥ 1` traded assets and every price `p` with `0 < p < 0.95 * avg`,
`determine_buy_amount` returns a buy-order size that is positive, hence
nonzero. -/
theorem buy_trigger_nonzero (t : Trader) (asset : Asset) (obs : HistoryObserver)
    (htr : t.m_history_tracker asset.name = some obs)
    (hfull : obs.m_recent_history.length = t.m_price_history.length)
    (hcash : 0 < t.m_cash) (hn : 1 ≤ t.m_asset_names.length) (hp : 0 < asset.price)
    (hlow : asset.price
      < (95 / 100) * (obs.m_recent_history.sum / (t.m_price_history.length : ℚ))) :
    ∃ size : ℚ, (t.determine_buy_amount asset).map Prod.fst = some size ∧ 0 < size
      ∧ size ≠ 0 := by
  have hdet := determine_buy_amount_full t asset obs htr hfull
  rw [mul_comm, if_pos hlow] at hdet
  have hnq : (0 : ℚ) < (t.m_asset_names.length : ℚ) := by exact_mod_cast hn
  have hpos : 0 < (t.m_cash / (t.m_asset_names.length : ℚ)) / asset.price :=
    div_pos (div_pos hcash hnq) hp
  exact ⟨_, by rw [hdet]; rfl, hpos, ne_of_gt hpos⟩

/-- Witness of C9 (amended): cash 10, window 10, 10, price 5. -/
theorem buy_trigger_nonzero_witness :
    ∃ size : ℚ,
      ((exampleTrader 10 0 [10, 10]).determine_buy_amount { name := "A", price := 5 }).map
          Prod.fst = some size
        ∧ 0 < size ∧ size ≠ 0 :=
  buy_trigger_nonzero (exampleTrader 10 0 [10, 10]) { name := "A", price := 5 }
    { m_maximum_history := 2, m_recent_history := [10, 10] }
    (by simp [exampleTrader]) (by simp [exampleTrader]) (by norm_num [exampleTrader])
    (by simp [exampleTrader]) (by norm_num) (by norm_num [exampleTrader])



/-! ### The ledger invariant -/

theorem solvent_new (initial_cash : ℚ) (asset_names : List String) (number_of_history : Nat)
    (t : Trader) (h : Trader.new initial_cash asset_names number_of_history = some t) :
    Solvent t := by
  unfold Trader.new at h
  split at h
  · simp at h
  · rename_i hneg
    simp only [Option.some.injEq] at h
    subst h
    exact ⟨not_lt.mp hneg, fun _ => le_refl _⟩

theorem set_up_ledger (names : List String) (t : Trader) :
    (names.foldl
        (fun acc asset =>
          { acc with
            m_history_tracker := fun a =>
              if a = asset then some (HistoryObserver.new acc.m_price_history.length)
              else acc.m_history_tracker a })
        t).m_cash = t.m_cash
      ∧ (names.foldl
        (fun acc asset =>
          { acc with
            m_history_tracker := fun a =>
              if a = asset then some (HistoryObserver.new acc.m_price_history.length)
              else acc.m_history_tracker a })
        t).m_portfolio = t.m_portfolio := by
  induction names generalizing t with
  | nil => exact ⟨rfl, rfl⟩
  | cons a rest ih =>
    simp only [List.foldl_cons]
    exact ih _

theorem solvent_set_up (t : Trader) (h : Solvent t) : Solvent t.set_up := by
  obtain ⟨hc, hp⟩ := set_up_ledger t.m_asset_names t
  unfold Solvent Trader.set_up
  rw [hc, hp]
  exact h

theorem solvent_buy (t : Trader) (name : String) (price amount : ℚ) (h : Solvent t)
    (hprice : 0 < price) : Solvent (t.buy name price amount) := by
  refine ⟨buy_cash_nonneg t name price amount h.1, ?_⟩
  intro other
  by_cases hsame : other = name
  · subst hsame
    rw [buy_holding]
    have hheld := h.2 other
    have hquot : 0 ≤ t.m_cash / price := div_nonneg h.1 (le_of_lt hprice)
    split
    · linarith
    · rename_i hpos
      have : 0 ≤ min (t.m_cash / price) amount := le_min hquot (le_of_lt (not_le.mp hpos))
      linarith
  · rw [buy_holding_other t name other price amount hsame]
    exact h.2 other

theorem determine_buy_amount_ledger (t : Trader) (asset : Asset) (size : ℚ) (t1 : Trader)
    (h : t.determine_buy_amount asset = some (size, t1)) :
    t1.m_cash = t.m_cash ∧ t1.m_portfolio = t.m_portfolio := by
  unfold Trader.determine_buy_amount at h
  split at h
  · simp at h
  · simp only at h
    split at h
    · simp only [Option.some.injEq, Prod.mk.injEq] at h
      rw [← h.2]
      exact ⟨rfl, rfl⟩
    · split at h <;>
      · simp only [Option.some.injEq, Prod.mk.injEq] at h
        rw [← h.2]
        exact ⟨rfl, rfl⟩

theorem determine_sell_amount_ledger (t : Trader) (asset : Asset) (size : ℚ) (t1 : Trader)
    (h : t.determine_sell_amount asset = some (size, t1)) :
    t1.m_cash = t.m_cash ∧ t1.m_portfolio = t.m_portfolio
      ∧ (size = 0 ∨ size = t.m_portfolio.holding asset.name) := by
  unfold Trader.determine_sell_amount at h
  split at h
  · simp at h
  · simp only at h
    split at h
    · simp only [Option.some.injEq, Prod.mk.injEq] at h
      rw [← h.2, ← h.1]
      exact ⟨rfl, rfl, Or.inl rfl⟩
    · split at h
      · simp only [Option.some.injEq, Prod.mk.injEq] at h
        rw [← h.2, ← h.1]
        exact ⟨rfl, rfl, Or.inr rfl⟩
      · simp only [Option.some.injEq, Prod.mk.injEq] at h
        rw [← h.2, ← h.1]
        exact ⟨rfl, rfl, Or.inl rfl⟩

theorem solvent_of_ledger (t t1 : Trader) (h : Solvent t) (hc : t1.m_cash = t.m_cash)
    (hp : t1.m_portfolio = t.m_portfolio) : Solvent t1 := by
  unfold Solvent
  rw [hc, hp]
  exact h

theorem solvent_sell (t : Trader) (name : String) (price size : ℚ) (h : Solvent t)
    (hprice : 0 < price) (hsize : size = 0 ∨ size = t.m_portfolio.holding name) :
    Solvent (t.sell name price size) := by
  unfold Trader.sell
  split
  · exact h
  · rename_i hpos
    have hpos : 0 < size := not_le.mp hpos
    rcases hsize with hzero | hall
    · rw [hzero] at hpos
      exact absurd hpos (lt_irrefl _)
    · refine ⟨?_, ?_⟩
      · have := mul_pos hpos hprice
        have := h.1
        simp only
        linarith
      · intro other
        by_cases hsame : other = name
        · subst hsame
          simp [Portfolio.remove, hall]
        · simp only [Portfolio.remove, if_neg hsame]
          exact h.2 other

theorem solvent_interact_asset (t : Trader) (m : Market) (name : String) (h : Solvent t)
    (hprice : 0 < m.current_price name) : Solvent (t.interact_asset m name).state := by
  unfold Trader.interact_asset
  split
  · exact h
  · rename_i size t1 hbuy
    obtain ⟨hc1, hp1⟩ := determine_buy_amount_ledger t _ size t1 hbuy
    have h1 : Solvent t1 := solvent_of_ledger t t1 h hc1 hp1
    have h2 : Solvent (t1.buy name (m.get_asset name).price size) :=
      solvent_buy t1 name _ size h1 hprice
    simp only
    split
    · exact h2
    · rename_i ssize t3 hsell
      obtain ⟨hc3, hp3, hs⟩ := determine_sell_amount_ledger _ _ ssize t3 hsell
      have h3 : Solvent t3 := solvent_of_ledger _ t3 h2 hc3 hp3
      refine solvent_sell t3 name _ ssize h3 hprice ?_
      rw [hp3]
      exact hs

theorem solvent_interact_loop (m : Market) (names : List String) (t : Trader) (h : Solvent t)
    (hprice : ∀ name, 0 < m.current_price name) :
    Solvent (Trader.interact_loop m names t).state := by
  induction names generalizing t with
  | nil => exact h
  | cons a rest ih =>
    have hstep := solvent_interact_asset t m a h (hprice a)
    unfold Trader.interact_loop
    split
    · rename_i t1 heq
      rw [heq] at hstep
      exact ih t1 hstep
    · rename_i t1 heq
      rw [heq] at hstep
      exact hstep

theorem solvent_of_reachable (t : Trader) (h : Reachable t) : Solvent t := by
  induction h with
  | fresh c names W t hnew => exact solvent_new c names W t hnew
  | set_up t _ ih => exact solvent_set_up t ih
  | tick t tracker _ ih => exact ih
  | buying t m name size t1 _ hprice hbuy ih =>
    obtain ⟨hc1, hp1⟩ := determine_buy_amount_ledger t _ size t1 hbuy
    exact solvent_buy t1 name _ size (solvent_of_ledger t t1 ih hc1 hp1) hprice
  | asset_done t m name _ hprice ih => exact solvent_interact_asset t m name ih hprice
  | interact t m _ hprice ih => exact solvent_interact_loop m t.m_asset_names t ih hprice

theorem reachable_freshTrader : Reachable freshTrader :=
  Reachable.fresh 10 ["A"] 2 freshTrader (by norm_num [Trader.new, freshTrader, List.replicate])

theorem reachable_traderWarm : Reachable traderWarm :=
  Reachable.tick freshTrader.set_up _ (Reachable.set_up freshTrader reachable_freshTrader)

theorem reachable_traderAfterBuy : Reachable traderAfterBuy :=
  Reachable.interact traderWarm (marketAt 5) reachable_traderWarm
    (fun _ => by norm_num [marketAt])

theorem reachable_traderBeforeSell : Reachable traderBeforeSell :=
  Reachable.tick traderAfterBuy _ reachable_traderAfterBuy

theorem reachable_traderAfterSell : Reachable traderAfterSell :=
  Reachable.interact traderBeforeSell (marketAt 2) reachable_traderBeforeSell
    (fun _ => by norm_num [marketAt])

/-- C10: in every state reached from a freshly constructed trader (initial
cash `≥ 0`, empty portfolio) through `set_up`, market ticks and `interact`
calls at positive prices, the states inside an `interact` call included,
every held quantity is `≥ 0`, and every sell size that `determine_sell_amount`
issues in such a state is at most the quantity held of that asset at that
moment. -/
theorem holdings_nonneg (t : Trader) (h : Reachable t) :
    (∀ name, 0 ≤ t.m_portfolio.holding name)
      ∧ ∀ (asset : Asset) (size : ℚ) (t1 : Trader),
          t.determine_sell_amount asset = some (size, t1) →
          size ≤ t.m_portfolio.holding asset.name := by
  have hsolv := solvent_of_reachable t h
  refine ⟨hsolv.2, ?_⟩
  intro asset size t1 hres
  obtain ⟨_, _, hs⟩ := determine_sell_amount_ledger t asset size t1 hres
  rcases hs with hzero | hall
  · rw [hzero]
    exact hsolv.2 asset.name
  · rw [hall]

/-- Witness of C10: the trader constructed with cash 10 for `"A"`, window
length 2. With the window 10, 10 an `interact` at price 5 buys 2 units; with
the window 1, 1 a later `interact` at price 2 sells them. The holding is 2
after the buy and 0 after the sell, both `≥ 0`. -/
theorem holdings_nonneg_witness :
    traderAfterBuy.m_portfolio.holding "A" = 2
      ∧ 0 ≤ traderAfterBuy.m_portfolio.holding "A"
      ∧ traderAfterSell.m_portfolio.holding "A" = 0
      ∧ traderAfterSell.m_cash = 4
      ∧ 0 ≤ traderAfterSell.m_portfolio.holding "A" :=
  ⟨by decide!,
    (holdings_nonneg traderAfterBuy reachable_traderAfterBuy).1 "A",
    by decide!,
    by decide!,
    (holdings_nonneg traderAfterSell reachable_traderAfterSell).1 "A"⟩

/-- C7: for every trader state reached from construction through `set_up`,
market ticks and `interact` calls at positive prices, whose observer for the
asset holds a full window of `W ≥ 1` prices: `determine_sell_amount` returns
the whole current holding of the asset if `p > 1.05 * avg` and `0` otherwise;
and when `p > 1.05 * avg`, applying `sell` with the result leaves the holding
of that asset at exactly `0`. -/
theorem sell_rule (t : Trader) (asset : Asset) (obs : HistoryObserver)
    (hreach : Reachable t)
    (htr : t.m_history_tracker asset.name = some obs)
    (hfull : obs.m_recent_history.length = t.m_price_history.length)
    (hW : 1 ≤ t.m_price_history.length) :
    (t.determine_sell_amount asset).map Prod.fst
        = some
            (if asset.price
                  > (105 / 100)
                    * (obs.m_recent_history.sum / (t.m_price_history.length : ℚ)) then
                t.m_portfolio.holding asset.name
              else 0)
      ∧ (asset.price
            > (105 / 100) * (obs.m_recent_history.sum / (t.m_price_history.length : ℚ)) →
          ∀ (s : ℚ) (t1 : Trader), t.determine_sell_amount asset = some (s, t1) →
            (t1.sell asset.name asset.price s).m_portfolio.holding asset.name = 0) := by
  have _ := hW
  have hheld : 0 ≤ t.m_portfolio.holding asset.name :=
    (solvent_of_reachable t hreach).2 asset.name
  have hdet := determine_sell_amount_full t asset obs htr hfull
  rw [mul_comm] at hdet
  constructor
  · rw [hdet]
    rfl
  · intro htrig s t1 hres
    rw [hdet, if_pos htrig] at hres
    simp only [Option.some.injEq, Prod.mk.injEq] at hres
    obtain ⟨hs, ht1⟩ := hres
    subst hs
    subst ht1
    unfold Trader.sell
    split
    · rename_i hle
      exact le_antisymm hle hheld
    · simp [Portfolio.remove, Portfolio.get]

/-- Witness of C7: the trader that bought 2 units of `"A"` in an earlier
`interact` now sees the window 1, 1 and the price 2; the decision returns
the holding 2 and the sell leaves the holding of `"A"` at 0. -/
theorem sell_rule_witness :
    (traderBeforeSell.determine_sell_amount { name := "A", price := 2 }).map Prod.fst
        = some
            (if (2 : ℚ) > (105 / 100)
                  * (([1, 1] : List ℚ).sum / (traderBeforeSell.m_price_history.length : ℚ)) then
                traderBeforeSell.m_portfolio.holding "A"
              else 0)
      ∧ traderBeforeSell.m_portfolio.holding "A" = 2
      ∧ (({ traderBeforeSell with m_price_history := [1, 1] } : Trader).sell
          "A" 2 2).m_portfolio.holding "A" = 0 :=
  ⟨(sell_rule traderBeforeSell { name := "A", price := 2 }
      { m_maximum_history := 2, m_recent_history := [1, 1] }
      reachable_traderBeforeSell (by decide!) (by decide!) (by decide!)).1,
    by decide!,
    (sell_rule traderBeforeSell { name := "A", price := 2 }
      { m_maximum_history := 2, m_recent_history := [1, 1] }
      reachable_traderBeforeSell (by decide!) (by decide!) (by decide!)).2
      (by decide!) 2 { traderBeforeSell with m_price_history := [1, 1] }
      (by
        have hheld : traderBeforeSell.m_portfolio.get "A" = 2 := by decide!
        rw [determine_sell_amount_full traderBeforeSell { name := "A", price := 2 }
          { m_maximum_history := 2, m_recent_history := [1, 1] } (by decide!) (by decide!),
          if_pos (by decide!), hheld])⟩

/-! ### Lemmas on the path generator -/

theorem range_map_getD (l : List ℚ) : (List.range l.length).map (fun i => l.getD i 0) = l := by
  apply List.ext_getElem
  · simp
  · intro i h1 h2
    simp [List.getD_eq_getElem?_getD, List.getElem?_eq_getElem h2]

theorem format_line_full (arr : List ℚ) (hpos : 1 ≤ arr.length)
    (hfit : arr.length < 4294967296) : format_line arr (uint32 arr.length) = arr := by
  have hm : uint32 arr.length = arr.length := Nat.mod_eq_of_lt hfit
  have hlast : uint32 (arr.length + 4294967295) = arr.length - 1 := by
    unfold uint32
    omega
  have hsucc : arr.length = (arr.length - 1) + 1 := by omega
  unfold format_line
  simp only [hm, hlast]
  have hrange := range_map_getD arr
  rw [hsucc, List.range_succ, List.map_append, List.map_singleton] at hrange
  simpa using hrange

theorem generate_row_partway (mu sigma : List ℚ) (z : Nat → ℚ) (i k : Nat) (st : GenState)
    (hk : k ≤ st.timestep_data.length) :
    generate_row mu sigma z i k st
      = { timestep_data :=
            (List.range k).map (path_entry mu sigma z i st.draws) ++ st.timestep_data.drop k
          draws := st.draws + k
          lines := st.lines } := by
  induction k with
  | zero => simp [generate_row]
  | succ k ih =>
    have hlt : k < st.timestep_data.length := hk
    have ihk := ih (Nat.le_of_lt hlt)
    unfold generate_row at ihk ⊢
    rw [List.range_succ, List.foldl_append, ihk]
    simp only [List.foldl_cons, List.foldl_nil, List.map_append, List.map_singleton]
    have hlen : ((List.range k).map (path_entry mu sigma z i st.draws)).length = k := by simp
    have hdrop : st.timestep_data.drop k
        = st.timestep_data[k] :: st.timestep_data.drop (k + 1) :=
      List.drop_eq_getElem_cons hlt
    congr 1
    rw [List.set_append, if_neg (by rw [hlen]; exact Nat.lt_irrefl k), hlen, Nat.sub_self, hdrop]
    simp only [List.set_cons_zero, path_entry, List.append_assoc, List.singleton_append]

theorem generate_row_full (mu sigma : List ℚ) (z : Nat → ℚ) (i : Nat) (st : GenState) :
    generate_row mu sigma z i st.timestep_data.length st
      = { timestep_data :=
            (List.range st.timestep_data.length).map (path_entry mu sigma z i st.draws)
          draws := st.draws + st.timestep_data.length
          lines := st.lines } := by
  rw [generate_row_partway mu sigma z i _ st (Nat.le_refl _)]
  simp


theorem generate_partway (asset_names : List String) (mu sigma : List ℚ) (z : Nat → ℚ)
    (hpos : 1 ≤ asset_names.length) (hfit : asset_names.length < 4294967296) (k : Nat) :
    ((List.range k).foldl
        (fun st i =>
          let st := generate_row mu sigma z i (uint32 asset_names.length) st
          { st with
            lines := st.lines
              ++ [format_line st.timestep_data (uint32 st.timestep_data.length)] })
        { timestep_data := List.replicate (uint32 asset_names.length) 0
          draws := 0
          lines := [] })
      = { timestep_data :=
            if k = 0 then List.replicate asset_names.length 0
            else (List.range asset_names.length).map
              (path_entry mu sigma z (k - 1) ((k - 1) * asset_names.length))
          draws := k * asset_names.length
          lines := (List.range k).map (fun t =>
            (List.range asset_names.length).map
              (path_entry mu sigma z t (t * asset_names.length))) } := by
  have hm : uint32 asset_names.length = asset_names.length := Nat.mod_eq_of_lt hfit
  rw [hm]
  induction k with
  | zero => simp
  | succ k ih =>
    rw [List.range_succ, List.foldl_append, ih]
    simp only [List.foldl_cons, List.foldl_nil]
    have hlen : (if k = 0 then List.replicate asset_names.length (0 : ℚ)
        else (List.range asset_names.length).map
          (path_entry mu sigma z (k - 1) ((k - 1) * asset_names.length))).length
          = asset_names.length := by
      split <;> simp
    have hrow := generate_row_full mu sigma z k
      { timestep_data :=
          if k = 0 then List.replicate asset_names.length 0
          else (List.range asset_names.length).map
            (path_entry mu sigma z (k - 1) ((k - 1) * asset_names.length))
        draws := k * asset_names.length
        lines := (List.range k).map (fun t =>
          (List.range asset_names.length).map
            (path_entry mu sigma z t (t * asset_names.length))) }
    simp only [hlen] at hrow
    rw [hrow]
    have hfmt := format_line_full
      ((List.range asset_names.length).map
        (path_entry mu sigma z k (k * asset_names.length)))
      (by simpa using hpos) (by simpa using hfit)
    simp only [hfmt, Nat.add_one_ne_zero, if_false, Nat.add_sub_cancel, List.map_append,
      List.map_singleton, Nat.succ_mul]

theorem generate_lines (asset_names : List String) (mu sigma : List ℚ) (n : Nat)
    (z : Nat → ℚ) (hpos : 1 ≤ asset_names.length) (hfit : asset_names.length < 4294967296) :
    (generate_log_price_history asset_names mu sigma n z).lines
        = (List.range n).map (fun t =>
            (List.range asset_names.length).map
              (path_entry mu sigma z t (t * asset_names.length)))
      ∧ (generate_log_price_history asset_names mu sigma n z).draws
        = n * asset_names.length := by
  unfold generate_log_price_history
  simp only []
  rw [generate_partway asset_names mu sigma z hpos hfit n]
  exact ⟨rfl, rfl⟩


/-! ### Claims on the path generator -/

/-- C11, evaluated on the code: one asset with drift 0 and volatility 1, one
tick, every draw equal to 1. The tick-0 line holds `0 * 0 + 1 * 1 = 1`, not
`0`: the draw is scaled by `sigma` alone, also at `t = 0`. -/
theorem tick_zero_line_carries_noise :
    (generate_log_price_history ["A"] [0] [1] 1 (fun _ => 1)).lines = [[1]] := by
  rw [(generate_lines ["A"] [0] [1] 1 (fun _ => 1) (by decide) (by decide)).1]
  norm_num [path_entry, List.range_succ]

/-- C12: for `M ≥ 1` asset names (a count that fits `unsigned int`), `mu` and
`sigma` of length `M`, `N` ticks and the draws `z 0, z 1, ...`, the generator
writes exactly `N` lines, in tick order, each of exactly `M` entries; the entry
at tick `t`, asset `a` is `t * mu[a] + sigma[a] * z (t * M + a)`; `N * M` draws
are taken, and distinct `(t, a)` pairs use distinct draws. The inputs `mu` and
`sigma` are only read. -/
theorem path_generation_formula (asset_names : List String) (mu sigma : List ℚ) (n : Nat)
    (z : Nat → ℚ) (hM : 1 ≤ asset_names.length) (hfit : asset_names.length < 4294967296)
    (hmu : mu.length = asset_names.length) (hsigma : sigma.length = asset_names.length) :
    (generate_log_price_history asset_names mu sigma n z).lines.length = n
      ∧ (∀ line ∈ (generate_log_price_history asset_names mu sigma n z).lines,
          line.length = asset_names.length)
      ∧ (∀ t a, t < n → a < asset_names.length →
          ((generate_log_price_history asset_names mu sigma n z).lines.getD t []).getD a 0
            = (t : ℚ) * mu.getD a 0 + sigma.getD a 0 * z (t * asset_names.length + a))
      ∧ (generate_log_price_history asset_names mu sigma n z).draws
          = n * asset_names.length
      ∧ (∀ t a t1 a1, a < asset_names.length → a1 < asset_names.length →
          t * asset_names.length + a = t1 * asset_names.length + a1 → t = t1 ∧ a = a1) := by
  have _ := hmu
  have _ := hsigma
  obtain ⟨hlines, hdraws⟩ := generate_lines asset_names mu sigma n z hM hfit
  refine ⟨?_, ?_, ?_, hdraws, ?_⟩
  · rw [hlines]
    simp
  · intro line hline
    rw [hlines] at hline
    simp only [List.mem_map, List.mem_range] at hline
    obtain ⟨t, _, rfl⟩ := hline
    simp
  · intro t a ht ha
    rw [hlines]
    simp [List.getD_eq_getElem?_getD, List.getElem?_map, List.getElem?_range ht,
      List.getElem?_range ha, path_entry]
  · intro t a t1 a1 ha ha1 heq
    have hdiv : (t * asset_names.length + a) / asset_names.length
        = (t1 * asset_names.length + a1) / asset_names.length := by rw [heq]
    have hpos : 0 < asset_names.length := hM
    rw [Nat.mul_comm t, Nat.mul_comm t1, Nat.mul_add_div hpos, Nat.mul_add_div hpos,
      Nat.div_eq_of_lt ha, Nat.div_eq_of_lt ha1, Nat.add_zero, Nat.add_zero] at hdiv
    subst hdiv
    exact ⟨rfl, by omega⟩

/-- Witness of C12: two assets, three ticks, draw `k` equal to `k`. -/
theorem path_generation_formula_witness :
    (generate_log_price_history ["A", "B"] [1, 2] [1, 10] 3 (fun k => k)).lines.length = 3 :=
  (path_generation_formula ["A", "B"] [1, 2] [1, 10] 3 (fun k => k)
    (by decide) (by decide) (by decide) (by decide)).1


/-! ### Claims on construction, sell and the trade frame -/

theorem copy_n_drop (src : List ℚ) (n : Nat) (dst : List ℚ) :
    (copy_n src n dst).drop n = dst.drop n := by
  induction src generalizing n dst with
  | nil => simp [copy_n]
  | cons a src ih =>
    cases n with
    | zero => simp [copy_n]
    | succ k =>
      cases dst with
      | nil => simp [copy_n]
      | cons d dst => simp [copy_n, ih]

theorem buy_frame (t : Trader) (name : String) (price amount : ℚ) :
    (t.buy name price amount).m_history_tracker = t.m_history_tracker
      ∧ (t.buy name price amount).m_price_history = t.m_price_history
      ∧ (t.buy name price amount).m_asset_names = t.m_asset_names
      ∧ (t.buy name price amount).m_initial_cash = t.m_initial_cash := by
  unfold Trader.buy
  split <;> exact ⟨rfl, rfl, rfl, rfl⟩

theorem buy_cash (t : Trader) (name : String) (price amount : ℚ) (hcash : 0 ≤ t.m_cash)
    (hprice : 0 < price) :
    (t.buy name price amount).m_cash
      = t.m_cash - (if amount ≤ 0 then 0 else min (t.m_cash / price) amount) * price := by
  unfold Trader.buy
  split
  · simp
  · have hle : min (t.m_cash / price) amount * price ≤ t.m_cash := by
      have h1 : min (t.m_cash / price) amount ≤ t.m_cash / price := min_le_left _ _
      have h2 := mul_le_mul_of_nonneg_right h1 (le_of_lt hprice)
      rwa [div_mul_cancel₀ _ (ne_of_gt hprice)] at h2
    have _ := hcash
    simp only
    exact max_eq_right (by linarith)

/-- C13: construction fails exactly when `initial_cash < 0`; for every
`initial_cash ≥ 0`, zero included, any asset names and any window length it
succeeds with cash and initial cash equal to `initial_cash` and nothing held. -/
theorem construction_validation (initial_cash : ℚ) (asset_names : List String)
    (number_of_history : Nat) :
    (Trader.new initial_cash asset_names number_of_history = none ↔ initial_cash < 0)
      ∧ (0 ≤ initial_cash →
          ∃ t : Trader, Trader.new initial_cash asset_names number_of_history = some t
            ∧ t.m_cash = initial_cash ∧ t.m_initial_cash = initial_cash
            ∧ (∀ name, t.m_portfolio.holding name = 0)
            ∧ t.m_asset_names = asset_names
            ∧ t.m_price_history.length = number_of_history) := by
  constructor
  · unfold Trader.new
    constructor
    · intro h
      by_contra hneg
      rw [if_neg hneg] at h
      exact Option.noConfusion h
    · intro h
      rw [if_pos h]
  · intro h
    unfold Trader.new
    rw [if_neg (not_lt.mpr h)]
    exact ⟨_, rfl, rfl, rfl, fun _ => rfl, rfl, by simp⟩

/-- Witness of C13: construction with zero cash succeeds. -/
theorem construction_validation_witness :
    ∃ t : Trader, Trader.new 0 ["A"] 2 = some t
      ∧ t.m_cash = 0 ∧ t.m_initial_cash = 0
      ∧ (∀ name, t.m_portfolio.holding name = 0)
      ∧ t.m_asset_names = ["A"]
      ∧ t.m_price_history.length = 2 :=
  (construction_validation 0 ["A"] 2).2 (le_refl 0)

/-- C14: for every state, price and `amount > 0`, also one larger than the
quantity held, `sell` lowers the holding of `name` by exactly `amount`, raises
cash by exactly `amount * price`, and changes no other holding and no other
member. -/
theorem sell_not_clamped (t : Trader) (name : String) (price amount : ℚ)
    (hpos : 0 < amount) :
    (t.sell name price amount).m_portfolio.holding name
        = t.m_portfolio.holding name - amount
      ∧ (t.sell name price amount).m_cash = t.m_cash + amount * price
      ∧ (∀ other, other ≠ name →
          (t.sell name price amount).m_portfolio.holding other = t.m_portfolio.holding other)
      ∧ (t.sell name price amount).m_history_tracker = t.m_history_tracker
      ∧ (t.sell name price amount).m_price_history = t.m_price_history
      ∧ (t.sell name price amount).m_asset_names = t.m_asset_names
      ∧ (t.sell name price amount).m_initial_cash = t.m_initial_cash := by
  unfold Trader.sell
  rw [if_neg (not_le.mpr hpos)]
  refine ⟨by simp [Portfolio.remove], rfl, ?_, rfl, rfl, rfl, rfl⟩
  intro other hne
  simp [Portfolio.remove, hne]

/-- Witness of C14: holding 1, a sell of 5 units at price 2 leaves `1 - 5`. -/
theorem sell_not_clamped_witness :
    ((exampleTrader 0 1 []).sell "A" 2 5).m_portfolio.holding "A"
      = (exampleTrader 0 1 []).m_portfolio.holding "A" - 5 :=
  (sell_not_clamped (exampleTrader 0 1 []) "A" 2 5 (by norm_num)).1

/-- C15: for every state, name and price and every `amount ≤ 0`, `buy` and
`sell` return the trader unchanged: cash, every holding and every other
member are as before. -/
theorem nonpositive_amount_noop (t : Trader) (name : String) (price amount : ℚ)
    (hnon : amount ≤ 0) :
    t.buy name price amount = t ∧ t.sell name price amount = t := by
  unfold Trader.buy Trader.sell
  rw [if_pos hnon, if_pos hnon]
  exact ⟨rfl, rfl⟩

/-- Witness of C15: a request of `-3` units. -/
theorem nonpositive_amount_noop_witness :
    (exampleTrader 10 1 []).buy "A" 2 (-3) = exampleTrader 10 1 []
      ∧ (exampleTrader 10 1 []).sell "A" 2 (-3) = exampleTrader 10 1 [] :=
  nonpositive_amount_noop (exampleTrader 10 1 []) "A" 2 (-3) (by norm_num)

/-- C16: a read returns exactly `min(amount, S)` for a window of size `S`; the
buffer keeps its length and every slot at or beyond that index keeps its
previous contents; when the buffer has at least that many slots, the slots
before it hold the front of the window. The method is `const`: the observer is
an argument that the call cannot change. -/
theorem read_count_and_frame (o : HistoryObserver) (history : List ℚ) (amount : Nat) :
    (o.get_price_history history amount).1 = min amount o.m_recent_history.length
      ∧ (o.get_price_history history amount).2.length = history.length
      ∧ (o.get_price_history history amount).2.drop (min amount o.m_recent_history.length)
          = history.drop (min amount o.m_recent_history.length)
      ∧ (∀ i, min amount o.m_recent_history.length ≤ i →
          (o.get_price_history history amount).2.getD i 0 = history.getD i 0)
      ∧ (min amount o.m_recent_history.length ≤ history.length →
          (o.get_price_history history amount).2.take (min amount o.m_recent_history.length)
            = o.m_recent_history.take (min amount o.m_recent_history.length)) := by
  have hcount := get_price_history_count o history amount
  have hdrop : (o.get_price_history history amount).2.drop
      (min amount o.m_recent_history.length)
        = history.drop (min amount o.m_recent_history.length) := by
    have h := copy_n_drop o.m_recent_history (o.get_price_history history amount).1 history
    rw [hcount] at h
    simp only [HistoryObserver.get_price_history] at hcount h ⊢
    rw [hcount]
    exact h
  refine ⟨hcount, get_price_history_length o history amount, hdrop, ?_, ?_⟩
  · intro i hi
    have hsplit : i = min amount o.m_recent_history.length
        + (i - min amount o.m_recent_history.length) := by omega
    rw [List.getD_eq_getElem?_getD, List.getD_eq_getElem?_getD, hsplit,
      ← List.getElem?_drop, ← List.getElem?_drop, hdrop]
  · intro hbuf
    rw [get_price_history_buffer o history amount hbuf]
    exact take_take_append_drop _ _ _ (Nat.min_le_right _ _)

/-- Witness of C16: a window of three values, two requested, a four-slot
buffer: the first two slots are overwritten with the front of the window. -/
theorem read_count_and_frame_witness :
    (({ m_maximum_history := 3, m_recent_history := [1, 2, 3] } :
        HistoryObserver).get_price_history [7, 8, 9, 10] 2).2.take
        (min 2 ({ m_maximum_history := 3, m_recent_history := [1, 2, 3] } :
          HistoryObserver).m_recent_history.length)
      = ({ m_maximum_history := 3, m_recent_history := [1, 2, 3] } :
          HistoryObserver).m_recent_history.take
        (min 2 ({ m_maximum_history := 3, m_recent_history := [1, 2, 3] } :
          HistoryObserver).m_recent_history.length) :=
  (read_count_and_frame { m_maximum_history := 3, m_recent_history := [1, 2, 3] }
    [7, 8, 9, 10] 2).2.2.2.2 (by decide)

/-- C17: in exact arithmetic, with cash `≥ 0` and price `p > 0`, `buy` leaves
`cash + holding(name) * p` unchanged and the floor at zero does not alter the
debited cash; and for every state, price and amount, `sell` leaves
`cash + holding(name) * p` unchanged. -/
theorem trade_value_conserved (t : Trader) (name : String) (price amount : ℚ) :
    (0 ≤ t.m_cash → 0 < price →
        (t.buy name price amount).m_cash
            + (t.buy name price amount).m_portfolio.holding name * price
          = t.m_cash + t.m_portfolio.holding name * price
        ∧ (t.buy name price amount).m_cash
          = t.m_cash
            - ((t.buy name price amount).m_portfolio.holding name
                - t.m_portfolio.holding name) * price)
      ∧ (t.sell name price amount).m_cash
          + (t.sell name price amount).m_portfolio.holding name * price
        = t.m_cash + t.m_portfolio.holding name * price := by
  constructor
  · intro hcash hprice
    rw [buy_cash t name price amount hcash hprice, buy_holding]
    constructor <;> ring
  · unfold Trader.sell
    split
    · rfl
    · simp only [Portfolio.remove, if_true]
      ring

/-- Witness of C17: cash 10, a request of 10 units at price 2. -/
theorem trade_value_conserved_witness :
    ((exampleTrader 10 0 []).buy "A" 2 10).m_cash
        + ((exampleTrader 10 0 []).buy "A" 2 10).m_portfolio.holding "A" * 2
      = (exampleTrader 10 0 []).m_cash + (exampleTrader 10 0 []).m_portfolio.holding "A" * 2 :=
  ((trade_value_conserved (exampleTrader 10 0 []) "A" 2 10).1
    (by norm_num [exampleTrader]) (by norm_num)).1


/-! ### Claims on the policy as a whole -/

theorem determine_buy_amount_value (t : Trader) (asset : Asset) (size : ℚ) (t1 : Trader)
    (h : t.determine_buy_amount asset = some (size, t1)) :
    (size = 0 ∨ size = (t.m_cash / (t.m_asset_names.length : ℚ)) / asset.price)
      ∧ t1.m_history_tracker = t.m_history_tracker
      ∧ t1.m_price_history.length = t.m_price_history.length
      ∧ t1.m_asset_names = t.m_asset_names := by
  unfold Trader.determine_buy_amount at h
  split at h
  · simp at h
  · rename_i obs _
    have hlen := get_price_history_length obs t.m_price_history t.m_price_history.length
    simp only at h
    split at h
    · simp only [Option.some.injEq, Prod.mk.injEq] at h
      rw [← h.2, ← h.1]
      exact ⟨Or.inl rfl, rfl, hlen, rfl⟩
    · split at h
      · simp only [Option.some.injEq, Prod.mk.injEq] at h
        rw [← h.2, ← h.1]
        exact ⟨Or.inr rfl, rfl, hlen, rfl⟩
      · simp only [Option.some.injEq, Prod.mk.injEq] at h
        rw [← h.2, ← h.1]
        exact ⟨Or.inl rfl, rfl, hlen, rfl⟩

/-- C18, refuted as stated, in the code's `double` arithmetic: cash 1, one
traded asset, the full window 100, 100 and the price 49. The policy returns
`r = fl(1 / 49) > 0`, the buy executes exactly `r` units, and the cash
afterwards is `1 - fl(r * 49) = 2 ^ (-53)`, not `cash - cash / n = 0`. -/
theorem policy_buy_rounding_counterexample :
    ((exampleTrader 1 0 [100, 100]).determine_buy_amount_double
        { name := "A", price := 49 }).map
        (fun x =>
          (x.1, (x.2.buy_double "A" 49 x.1).m_portfolio.holding "A",
            (x.2.buy_double "A" 49 x.1).m_cash))
        = some
            (5882252574524729 / 288230376151711744,
              5882252574524729 / 288230376151711744, 1 / 9007199254740992)
      ∧ (0 : ℚ) < 5882252574524729 / 288230376151711744
      ∧ (1 / 9007199254740992 : ℚ)
          ≠ binary64 ((exampleTrader 1 0 [100, 100]).m_cash
              - binary64 ((exampleTrader 1 0 [100, 100]).m_cash
                  / ((exampleTrader 1 0 [100, 100]).m_asset_names.length : ℚ)))
      ∧ (1 / 9007199254740992 : ℚ)
          ≠ (exampleTrader 1 0 [100, 100]).m_cash
              - (exampleTrader 1 0 [100, 100]).m_cash
                / ((exampleTrader 1 0 [100, 100]).m_asset_names.length : ℚ) := by
  decide!

/-- C18, amended: in exact arithmetic, with cash `≥ 0`, `n ≥ 1` traded assets
and price `p > 0`, the amount `r` returned by `determine_buy_amount` satisfies
`0 ≤ r ≤ cash / p`, the `buy` called with it adds exactly `r` to the holding,
and when `r > 0` the cash afterwards is `max(0, cash - r * p)`, which is
exactly `cash - cash / n`. -/
theorem policy_buy_not_clamped (t : Trader) (asset : Asset) (r : ℚ) (t1 : Trader)
    (hcash : 0 ≤ t.m_cash) (hn : 1 ≤ t.m_asset_names.length) (hp : 0 < asset.price)
    (hres : t.determine_buy_amount asset = some (r, t1)) :
    0 ≤ r ∧ r ≤ t.m_cash / asset.price
      ∧ (t1.buy asset.name asset.price r).m_portfolio.holding asset.name
          = t.m_portfolio.holding asset.name + r
      ∧ (0 < r →
          (t1.buy asset.name asset.price r).m_cash = max 0 (t.m_cash - r * asset.price)
            ∧ (t1.buy asset.name asset.price r).m_cash
              = t.m_cash - t.m_cash / (t.m_asset_names.length : ℚ)) := by
  obtain ⟨hc1, hp1⟩ := determine_buy_amount_ledger t asset r t1 hres
  obtain ⟨hval, _, _, _⟩ := determine_buy_amount_value t asset r t1 hres
  have hnq : (1 : ℚ) ≤ (t.m_asset_names.length : ℚ) := by exact_mod_cast hn
  have hnpos : (0 : ℚ) < (t.m_asset_names.length : ℚ) := lt_of_lt_of_le one_pos hnq
  have hquot : 0 ≤ t.m_cash / asset.price := div_nonneg hcash (le_of_lt hp)
  have hshare : t.m_cash / (t.m_asset_names.length : ℚ) ≤ t.m_cash :=
    div_le_self hcash hnq
  have hpolicy : (t.m_cash / (t.m_asset_names.length : ℚ)) / asset.price
      ≤ t.m_cash / asset.price :=
    div_le_div_of_nonneg_right hshare (le_of_lt hp)
  have hr0 : 0 ≤ r := by
    rcases hval with h0 | hv
    · rw [h0]
    · rw [hv]
      exact div_nonneg (div_nonneg hcash (le_of_lt hnpos)) (le_of_lt hp)
  have hrle : r ≤ t.m_cash / asset.price := by
    rcases hval with h0 | hv
    · rw [h0]
      exact hquot
    · rw [hv]
      exact hpolicy
  have hexec : (if r ≤ 0 then 0 else min (t1.m_cash / asset.price) r) = r := by
    split
    · rename_i hle
      exact le_antisymm hr0 hle
    · rw [hc1]
      exact min_eq_right hrle
  refine ⟨hr0, hrle, ?_, ?_⟩
  · rw [buy_holding, hexec, hp1]
  · intro hpos
    have hv : r = (t.m_cash / (t.m_asset_names.length : ℚ)) / asset.price := by
      rcases hval with h0 | hv
      · rw [h0] at hpos
        exact absurd hpos (lt_irrefl _)
      · exact hv
    have hdebit : r * asset.price = t.m_cash / (t.m_asset_names.length : ℚ) := by
      rw [hv, div_mul_cancel₀ _ (ne_of_gt hp)]
    have hcashafter : (t1.buy asset.name asset.price r).m_cash
        = t.m_cash - t.m_cash / (t.m_asset_names.length : ℚ) := by
      rw [buy_cash t1 asset.name asset.price r (by rw [hc1]; exact hcash) hp, hexec, hc1,
        hdebit]
    refine ⟨?_, hcashafter⟩
    rw [hcashafter, hdebit]
    exact (max_eq_right (by linarith)).symm

/-- Witness of C18 (amended): cash 10, one traded asset, window 10, 10,
price 5: the policy asks for 2 units and the buy executes them. -/
theorem policy_buy_not_clamped_witness :
    (0 : ℚ) ≤ 2 ∧ (2 : ℚ) ≤ (exampleTrader 10 0 [10, 10]).m_cash / 5
      ∧ (({ exampleTrader 10 0 [10, 10] with m_price_history := [10, 10] } : Trader).buy
          "A" 5 2).m_portfolio.holding "A"
          = (exampleTrader 10 0 [10, 10]).m_portfolio.holding "A" + 2
      ∧ ((0 : ℚ) < 2 →
          (({ exampleTrader 10 0 [10, 10] with m_price_history := [10, 10] } : Trader).buy
            "A" 5 2).m_cash = max 0 ((exampleTrader 10 0 [10, 10]).m_cash - 2 * 5)
          ∧ (({ exampleTrader 10 0 [10, 10] with m_price_history := [10, 10] } : Trader).buy
            "A" 5 2).m_cash
            = (exampleTrader 10 0 [10, 10]).m_cash
              - (exampleTrader 10 0 [10, 10]).m_cash
                / ((exampleTrader 10 0 [10, 10]).m_asset_names.length : ℚ)) :=
  policy_buy_not_clamped (exampleTrader 10 0 [10, 10]) { name := "A", price := 5 } 2
    { exampleTrader 10 0 [10, 10] with m_price_history := [10, 10] }
    (by norm_num [exampleTrader]) (by simp [exampleTrader]) (by norm_num)
    (by
      rw [determine_buy_amount_full (exampleTrader 10 0 [10, 10]) { name := "A", price := 5 }
        { m_maximum_history := 2, m_recent_history := [10, 10] }
        (by simp [exampleTrader]) (by simp [exampleTrader])]
      norm_num [exampleTrader])

/-- C19: for a full window whose average `avg` is `≥ 0`, no price `p` satisfies
both `p < 0.95 * avg` and `p > 1.05 * avg`; hence the amounts that
`determine_buy_amount` and `determine_sell_amount` return for one asset, on
the same state or in the order `interact` calls them (sell decided after the
buy was applied), are never both nonzero. -/
theorem signals_exclusive (t : Trader) (m : Market) (name : String) (obs : HistoryObserver)
    (htr : t.m_history_tracker name = some obs)
    (hfull : obs.m_recent_history.length = t.m_price_history.length)
    (havg : 0 ≤ obs.m_recent_history.sum / (t.m_price_history.length : ℚ)) :
    (∀ p : ℚ,
        ¬ (p < (95 / 100) * (obs.m_recent_history.sum / (t.m_price_history.length : ℚ))
          ∧ p > (105 / 100) * (obs.m_recent_history.sum / (t.m_price_history.length : ℚ))))
      ∧ (∀ (b s : ℚ) (t1 t3 : Trader),
          t.determine_buy_amount (m.get_asset name) = some (b, t1) →
          t.determine_sell_amount (m.get_asset name) = some (s, t3) →
          b = 0 ∨ s = 0)
      ∧ (∀ (b s : ℚ) (t1 t3 : Trader),
          t.determine_buy_amount (m.get_asset name) = some (b, t1) →
          (t1.buy name (m.get_asset name).price b).determine_sell_amount (m.get_asset name)
            = some (s, t3) →
          b = 0 ∨ s = 0) := by
  have hexcl : ∀ p : ℚ,
      ¬ (p < (95 / 100) * (obs.m_recent_history.sum / (t.m_price_history.length : ℚ))
        ∧ p > (105 / 100) * (obs.m_recent_history.sum / (t.m_price_history.length : ℚ))) := by
    intro p hboth
    obtain ⟨hlow, hhigh⟩ := hboth
    linarith
  have hbuy := determine_buy_amount_full t (m.get_asset name) obs htr hfull
  rw [mul_comm] at hbuy
  have hdecide : ∀ (b s : ℚ),
      (b = if (m.get_asset name).price
            < (95 / 100) * (obs.m_recent_history.sum / (t.m_price_history.length : ℚ)) then
          (t.m_cash / (t.m_asset_names.length : ℚ)) / (m.get_asset name).price
        else 0) →
      ((m.get_asset name).price
          > (105 / 100) * (obs.m_recent_history.sum / (t.m_price_history.length : ℚ)) ∨
        s = 0) →
      b = 0 ∨ s = 0 := by
    intro b s hb hs
    by_cases hlow : (m.get_asset name).price
        < (95 / 100) * (obs.m_recent_history.sum / (t.m_price_history.length : ℚ))
    · rcases hs with hhigh | hzero
      · exact absurd ⟨hlow, hhigh⟩ (hexcl _)
      · exact Or.inr hzero
    · rw [if_neg hlow] at hb
      exact Or.inl hb
  refine ⟨hexcl, ?_, ?_⟩
  · intro b s t1 t3 hb hs
    have hsell := determine_sell_amount_full t (m.get_asset name) obs htr hfull
    rw [mul_comm] at hsell
    rw [hbuy] at hb
    rw [hsell] at hs
    simp only [Option.some.injEq, Prod.mk.injEq] at hb hs
    refine hdecide b s hb.1.symm ?_
    by_cases hhigh : (m.get_asset name).price
        > (105 / 100) * (obs.m_recent_history.sum / (t.m_price_history.length : ℚ))
    · exact Or.inl hhigh
    · rw [if_neg hhigh] at hs
      exact Or.inr hs.1.symm
  · intro b s t1 t3 hb hs
    rw [hbuy] at hb
    simp only [Option.some.injEq, Prod.mk.injEq] at hb
    obtain ⟨hbval, ht1⟩ := hb
    obtain ⟨hf1, hf2, _, _⟩ := buy_frame t1 name (m.get_asset name).price b
    have htr2 : (t1.buy name (m.get_asset name).price b).m_history_tracker
        (m.get_asset name).name = some obs := by
      rw [hf1, ← ht1]
      exact htr
    have hph2 : (t1.buy name (m.get_asset name).price b).m_price_history
        = obs.m_recent_history := by
      rw [hf2, ← ht1]
    have hfull2 : obs.m_recent_history.length
        = (t1.buy name (m.get_asset name).price b).m_price_history.length := by
      rw [hph2]
    have hsell := determine_sell_amount_full (t1.buy name (m.get_asset name).price b)
      (m.get_asset name) obs htr2 hfull2
    rw [mul_comm, hph2, hfull] at hsell
    rw [hsell] at hs
    simp only [Option.some.injEq, Prod.mk.injEq] at hs
    refine hdecide b s hbval.symm ?_
    by_cases hhigh : (m.get_asset name).price
        > (105 / 100) * (obs.m_recent_history.sum / (t.m_price_history.length : ℚ))
    · exact Or.inl hhigh
    · rw [if_neg hhigh] at hs
      exact Or.inr hs.1.symm

/-- Witness of C19: window 10, 10 (average 10); the price 5 is a buy signal
and not a sell signal. -/
theorem signals_exclusive_witness :
    ¬ ((5 : ℚ) < (95 / 100)
          * (([10, 10] : List ℚ).sum / ((exampleTrader 10 0 [10, 10]).m_price_history.length : ℚ))
      ∧ (5 : ℚ) > (105 / 100)
          * (([10, 10] : List ℚ).sum
            / ((exampleTrader 10 0 [10, 10]).m_price_history.length : ℚ))) :=
  (signals_exclusive (exampleTrader 10 0 [10, 10]) { current_price := fun _ => 5 } "A"
    { m_maximum_history := 2, m_recent_history := [10, 10] }
    (by simp [exampleTrader]) (by simp [exampleTrader]) (by norm_num [exampleTrader])).1 5

/-- C20: with window length `W ≥ 1`, `n ≥ 1` traded assets, a registered
observer and price `p > 0`, both decision functions return (no exception); the
divisors `W`, `n` and `p` are nonzero; the number of values copied is at most
`W` and at most the window size, so the copy stays inside the deque and the
`W`-slot scratch vector; and every index `i` below the number copied, which
are the indices the averaging loop reads, lies inside the scratch vector and
holds the value just copied from the window. -/
theorem decisions_total (t : Trader) (asset : Asset) (obs : HistoryObserver)
    (htr : t.m_history_tracker asset.name = some obs)
    (hW : 1 ≤ t.m_price_history.length) (hn : 1 ≤ t.m_asset_names.length)
    (hp : 0 < asset.price) :
    (∃ r, t.determine_buy_amount asset = some r)
      ∧ (∃ r, t.determine_sell_amount asset = some r)
      ∧ ((t.m_price_history.length : ℚ) ≠ 0 ∧ (t.m_asset_names.length : ℚ) ≠ 0
          ∧ asset.price ≠ 0)
      ∧ (obs.get_price_history t.m_price_history t.m_price_history.length).1
          ≤ t.m_price_history.length
      ∧ (obs.get_price_history t.m_price_history t.m_price_history.length).1
          ≤ obs.m_recent_history.length
      ∧ (obs.get_price_history t.m_price_history t.m_price_history.length).2.length
          = t.m_price_history.length
      ∧ (∀ i, i < (obs.get_price_history t.m_price_history t.m_price_history.length).1 →
          i < (obs.get_price_history t.m_price_history t.m_price_history.length).2.length
            ∧ (obs.get_price_history t.m_price_history t.m_price_history.length).2[i]?
              = obs.m_recent_history[i]?) := by
  have hcount := get_price_history_count obs t.m_price_history t.m_price_history.length
  have hlen := get_price_history_length obs t.m_price_history t.m_price_history.length
  have hbuf := get_price_history_buffer obs t.m_price_history t.m_price_history.length
    (Nat.min_le_left _ _)
  refine ⟨?_, ?_, ⟨?_, ?_, ne_of_gt hp⟩, ?_, ?_, hlen, ?_⟩
  · unfold Trader.determine_buy_amount
    rw [htr]
    simp only
    split
    · exact ⟨_, rfl⟩
    · split <;> exact ⟨_, rfl⟩
  · unfold Trader.determine_sell_amount
    rw [htr]
    simp only
    split
    · exact ⟨_, rfl⟩
    · split <;> exact ⟨_, rfl⟩
  · have : (1 : ℚ) ≤ (t.m_price_history.length : ℚ) := by exact_mod_cast hW
    linarith
  · have : (1 : ℚ) ≤ (t.m_asset_names.length : ℚ) := by exact_mod_cast hn
    linarith
  · rw [hcount]
    exact Nat.min_le_left _ _
  · rw [hcount]
    exact Nat.min_le_right _ _
  · intro i hi
    rw [hcount] at hi
    have hileft : i < t.m_price_history.length := lt_of_lt_of_le hi (Nat.min_le_left _ _)
    refine ⟨by rw [hlen]; exact hileft, ?_⟩
    have htake : i < (obs.m_recent_history.take
        (min t.m_price_history.length obs.m_recent_history.length)).length := by
      rw [List.length_take]
      omega
    rw [hbuf, List.getElem?_append_left htake, List.getElem?_take_of_lt hi]

/-- Witness of C20: window length 2, one value observed, price 5: the buy
decision returns. -/
theorem decisions_total_witness :
    ∃ r, (exampleTrader 10 0 [1]).determine_buy_amount { name := "A", price := 5 } = some r :=
  (decisions_total (exampleTrader 10 0 [1]) { name := "A", price := 5 }
    { m_maximum_history := 2, m_recent_history := [1] }
    (by simp [exampleTrader]) (by simp [exampleTrader]) (by simp [exampleTrader])
    (by norm_num)).1

end TraderSim
